import Mathlib

/-!
# nicehttp: response resolution and the static router

A shallow embedding of `http.go` (`Handler.ServeHTTP`) and `gae.go`
(`buildHandler` and the handler it returns) of the Go package `nicehttp`.

Go strings are Lean strings; Go `int` values are `Int`. The parts of the Go
standard library the package calls (`net/http`, `regexp`, `strconv`) are
modelled next to the code that uses them, each with a note on what the model
covers. The router is parametrised by the regexp engine (`Engine`), so that
its general properties hold of Go's `regexp` and not only of the model.
-/

set_option autoImplicit false
set_option maxRecDepth 8192

namespace nicehttp

/-! ## net/http: header maps -/

/-- Token characters of a header field name (`validHeaderFieldByte`). -/
def validHeaderFieldByte (c : Char) : Bool :=
  c.isAlphanum || "!#$%&\x27*+-.^_\x60|~".data.contains c

/-- The canonical casing loop of `CanonicalMIMEHeaderKey`: upper case at the
start and after a hyphen, lower case elsewhere. -/
def canonicalCase : Bool → List Char → List Char
  | _, [] => []
  | upper, c :: cs =>
    (if upper then c.toUpper else c.toLower) :: canonicalCase (c == '-') cs

/-- Go `textproto.CanonicalMIMEHeaderKey`: a key holding a byte that is not a
token character is returned unchanged. -/
def CanonicalMIMEHeaderKey (s : String) : String :=
  if s.data.all validHeaderFieldByte then ⟨canonicalCase true s.data⟩ else s

/-- Go `http.Header`, restricted to what `Set`, `Get` and a key test need: one
value per canonical key. -/
abbrev Header := List (String × String)

/-- Direct map access `h[key]`, the key taken as it is. -/
def Header.find (h : Header) (key : String) : Option String :=
  h.lookup key

/-- Go `Header.Set`: the key is canonicalised and its value replaced. -/
def Header.Set (h : Header) (key value : String) : Header :=
  (CanonicalMIMEHeaderKey key, value) ::
    h.filter (fun kv => kv.1 != CanonicalMIMEHeaderKey key)

/-- Go `Header.Get`: the value under the canonical key, `""` when absent. -/
def Header.Get (h : Header) (key : String) : String :=
  (h.find (CanonicalMIMEHeaderKey key)).getD ""

/-! ## net/http: the response writer

The model follows the `http.ResponseWriter` contract as the `net/http` server
implements it (`response.WriteHeader`, `response.write`):

* only the first `WriteHeader` call counts, later ones are ignored;
* the header map is committed at that call: "changing the header map after a
  call to WriteHeader (or Write) has no effect";
* `Write` calls `WriteHeader(200)` when no status was written, and fails with
  `ErrBodyNotAllowed` when the status admits no body (1xx, 204, 304);
* `WriteHeader` panics on a code outside `100..999` (`checkWriteHeaderCode`);
* an informational code (`100..199` other than 101) given to `WriteHeader` is
  sent at once as an interim response, with the headers set so far, and
  leaves the status of the reply unwritten (`net/http` since Go 1.19);
* the body of a reply to a HEAD request is swallowed.

Headers the server adds on its own (Date, Content-Length, a sniffed
Content-Type when none was committed) and network failures of `Write` are
outside the model.
-/

/-- An incoming request: method, `URL.Path` and header map. -/
structure Request where
  Method : String
  Path : String
  Header : Header
deriving DecidableEq, Repr

/-- State of the server side `http.ResponseWriter` of one request. -/
structure ResponseWriter where
  /-- method of the request being answered -/
  reqMethod : String
  /-- the map returned by `w.Header()` -/
  handlerHeader : Header
  /-- whether `WriteHeader` has been called -/
  wroteHeader : Bool
  /-- the status given to the first `WriteHeader` -/
  status : Int
  /-- the headers committed by the first `WriteHeader` -/
  committed : Header
  /-- the body bytes accepted so far -/
  body : String
  /-- the interim (1xx) responses sent so far: status and headers of each -/
  interim : List (Int × Header)
deriving DecidableEq, Repr

/-- The writer handed to a handler for request `r`. -/
def ResponseWriter.new (r : Request) : ResponseWriter :=
  { reqMethod := r.Method, handlerHeader := [], wroteHeader := false,
    status := 0, committed := [], body := "", interim := [] }

/-- The call `w.Header().Set(key, value)`. -/
def ResponseWriter.SetHeader (w : ResponseWriter) (key value : String) : ResponseWriter :=
  { w with handlerHeader := w.handlerHeader.Set key value }

/-- Go `checkWriteHeaderCode`: codes outside `100..999` make `WriteHeader` panic. -/
def checkWriteHeaderCode (code : Int) : Bool :=
  decide (100 ≤ code) && decide (code ≤ 999)

/-- The codes `WriteHeader` treats as informational: `100..199` other than
101 Switching Protocols. -/
def informational (code : Int) : Bool :=
  decide (100 ≤ code) && decide (code ≤ 199) && decide (code ≠ 101)

/-- Go `WriteHeader`; `none` stands for the panic on an invalid code. A call
after the status is written is ignored; an informational code is sent as an
interim response and the status stays unwritten. -/
def ResponseWriter.WriteHeader (w : ResponseWriter) (code : Int) : Option ResponseWriter :=
  if w.wroteHeader then some w
  else if !checkWriteHeaderCode code then none
  else if informational code then
    some { w with interim := w.interim ++ [(code, w.handlerHeader)] }
  else
    some { w with wroteHeader := true, status := code, committed := w.handlerHeader }

/-- Go `bodyAllowedForStatus`. -/
def bodyAllowedForStatus (status : Int) : Bool :=
  if 100 ≤ status ∧ status ≤ 199 then false
  else if status = 204 then false
  else if status = 304 then false
  else true

/-- Go `Write`: the writer afterwards and the error returned, if any. -/
def ResponseWriter.Write (w : ResponseWriter) (data : String) : ResponseWriter × Option String :=
  let w1 : ResponseWriter :=
    if w.wroteHeader then w
    else { w with wroteHeader := true, status := 200, committed := w.handlerHeader }
  if data = "" then (w1, none)
  else if !bodyAllowedForStatus w1.status then (w1, some "http: request method or response status code does not allow body")
  else if w1.reqMethod = "HEAD" then (w1, none)
  else ({ w1 with body := w1.body ++ data }, none)

/-- What the client receives once the handler has returned. -/
structure Result where
  StatusCode : Int
  Header : Header
  Body : String
deriving DecidableEq, Repr

/-- The reply sent when the handler returns: a handler that never wrote a
status gets `200` with the header map as it stands. -/
def ResponseWriter.Result (w : ResponseWriter) : Result :=
  if w.wroteHeader then { StatusCode := w.status, Header := w.committed, Body := w.body }
  else { StatusCode := 200, Header := w.handlerHeader, Body := w.body }

/-- Go `http.StatusText`, for the codes the package uses. -/
def StatusText (code : Int) : String :=
  if code = 500 then "Internal Server Error"
  else if code = 303 then "See Other"
  else if code = 304 then "Not Modified"
  else ""

/-- Go `http.Error`: plain-text content type, the status, then the message and
a newline (`fmt.Fprintln`). -/
def Error (w : ResponseWriter) (error : String) (code : Int) : Option ResponseWriter := do
  let w := w.SetHeader "Content-Type" "text/plain; charset=utf-8"
  let w := w.SetHeader "X-Content-Type-Options" "nosniff"
  let w ← w.WriteHeader code
  pure (w.Write (error ++ "\n")).1

/-! ## http.go -/

/-- Library functions taken as parameters: the hex form (`%x`) of `md5.Sum`,
and the string transformations of `http.Redirect`: `cleanURL oldpath url` is
the target made absolute against the request path and cleaned when it has no
scheme or host, `hexEscapeNonASCII` and `htmlEscape` are the functions of
those names. -/
structure Lib where
  md5hex : String → String
  cleanURL : (oldpath url : String) → String
  hexEscapeNonASCII : String → String
  htmlEscape : String → String

/-- The value a handler returns (Go `interface{}`), one constructor per case
of the type switch in `ServeHTTP`. Values whose behaviour lies in a library
are given by what that library does with them:
* `Template chunks err`: `Execute` writes `chunks` in turn and returns `err`;
* `Reader chunks err`: the reader yields `chunks`, then EOF or the error `err`;
* `json enc`: any other value, `enc` being the result of `json.Marshal` on it. -/
inductive Response where
  | ContentType (ContentType : String) (Response : Response)
  | Status (Status : Int) (Response : Response)
  | int (v : Int)
  | string (v : String)
  | Template (chunks : List String) (err : Option String)
  | Redirect (target : String)
  | Reader (chunks : List String) (err : Option String)
  | bytes (v : String)
  | error (msg : String)
  | json (enc : Except String String)
deriving Repr

/-- Message of `ErrInvalidStatusCode`. -/
def ErrInvalidStatusCode : String := "status code <100 or >=600 specified"

/-- Writes made one after the other, stopping at the first that fails, as
`io.Copy` and template execution do; `err` is returned when all succeed. -/
def writeChunks (w : ResponseWriter) : List String → Option String → ResponseWriter × Option String
  | [], err => (w, err)
  | c :: cs, err =>
    match w.Write c with
    | (w1, none) => writeChunks w1 cs err
    | (w1, some e) => (w1, some e)

/-- Go `http.Redirect(w, r, url, code)`. -/
def Redirect (lib : Lib) (w : ResponseWriter) (r : Request) (url : String) (code : Int) :
    Option ResponseWriter := do
  let url := lib.cleanURL (if r.Path = "" then "/" else r.Path) url
  let hadCT := (w.handlerHeader.find "Content-Type").isSome
  let w := w.SetHeader "Location" (lib.hexEscapeNonASCII url)
  let w := if !hadCT && (r.Method = "GET" || r.Method = "HEAD")
    then w.SetHeader "Content-Type" "text/html; charset=utf-8" else w
  let w ← w.WriteHeader code
  if !hadCT && r.Method = "GET" then
    let body := "<a href=\"" ++ lib.htmlEscape url ++ "\">" ++ StatusText code ++ "</a>.\n"
    pure (w.Write (body ++ "\n")).1
  else pure w

/-- The `retry:` loop and type switch of `ServeHTTP`: the writer after the
switch together with `err`; `none` when a `WriteHeader` call panics. -/
def resolve (lib : Lib) (r : Request) : Response → ResponseWriter → Option (ResponseWriter × Option String)
  | .ContentType ct out, w => resolve lib r out (w.SetHeader "Content-Type" ct)
  | .Status s out, w => do
    let w ← w.WriteHeader s
    resolve lib r out w
  | .int v, w =>
    if v < 100 ∨ v ≥ 600 then some (w, some ErrInvalidStatusCode)
    else do
      let w ← w.WriteHeader v
      pure (w, none)
  | .string v, w => some ((w.Write v).1, none)
  | .Template chunks err, w => some (writeChunks w chunks err)
  | .Redirect v, w => do
    let target := if v = "" then r.Path else v
    let w ← Redirect lib w r target 303
    pure (w, none)
  | .Reader chunks err, w => some (writeChunks w chunks err)
  | .bytes v, w =>
    some ((w.SetHeader "Content-Length" (toString v.utf8ByteSize)).Write v)
  | .error msg, w => some (w, some msg)
  | .json enc, w =>
    let w := w.SetHeader "Content-Type" "application/json"
    if r.Method ≠ "GET" then
      -- json.Encoder.Encode: marshal, append a newline, one Write
      match enc with
      | .error e => some (w, some e)
      | .ok b => some (w.Write (b ++ "\n"))
    else
      match enc with
      | .error e => some (w, some e)
      | .ok b =>
        let etag := "\"" ++ lib.md5hex b ++ "\""
        if r.Header.Get "If-None-Match" = etag then
          (Error w "" 304).map (fun w => (w, none))
        else
          some ((w.SetHeader "ETag" etag).Write b)

/-- The handler type: the request to the value returned. -/
abbrev Handler := Request → Response

/-- Go `Handler.ServeHTTP`: the state of the writer when the method returns,
`none` when it panics. -/
def Handler.ServeHTTP (lib : Lib) (h : Handler) (w : ResponseWriter) (r : Request) :
    Option ResponseWriter := do
  let out := h r
  let (w, err) ← resolve lib r out w
  match err with
  | some _ => Error w (StatusText 500) 500
  | none => pure w

/-- The reply a client gets from `h` on request `r`, `none` when serving panics. -/
def serve (lib : Lib) (h : Handler) (r : Request) : Option Result :=
  (Handler.ServeHTTP lib h (ResponseWriter.new r) r).map ResponseWriter.Result

/-- A stand-in for the library parameters, for evaluating replies that do not
depend on them. -/
def Lib.sample : Lib :=
  { md5hex := fun _ => "d41d8cd98f00b204e9800998ecf8427e", cleanURL := fun _ url => url,
    hexEscapeNonASCII := fun s => s, htmlEscape := fun s => s }

/-! ## regexp

A model of the part of Go's `regexp` package the router relies on. Patterns
are parsed into a syntax tree as `regexp/syntax` does, for this subset of the
RE2 syntax: literal characters, `.`, `^`, `$`, `\d`, a backslash before a
punctuation character, groups `( )` and `(?: )`, alternation, and the
repetitions `*`, `+`, `?` with their lazy forms. Character classes, counted
repetition, flags, named groups, the other escapes, and a repetition of
something that can match the empty string are not covered: Go accepts them,
and the `Compile` of this model reports them as errors, with a message that
says so. An error of this `Compile` is therefore evidence of nothing about Go;
the model is used only to run the router on patterns of the subset, where it
agrees with Go. What is stated of every rule list is stated over an `Engine`,
which takes `regexp.Compile` and `FindStringSubmatch` as they are.

Matching is leftmost-first as in Go: the matcher lists the ways a pattern can
match at a position in order of preference, and the first one at the leftmost
position is the match.
-/

/-- Syntax tree of a pattern. `bol` and `eol` are `^` and `$`, which without
flags match at the beginning and the end of the text only. -/
inductive Regex where
  | empty
  | lit (c : Char)
  | any
  | digit
  | bol
  | eol
  | cat (a b : Regex)
  | alt (a b : Regex)
  | star (greedy : Bool) (a : Regex)
  | plus (greedy : Bool) (a : Regex)
  | quest (greedy : Bool) (a : Regex)
  | group (index : Nat) (a : Regex)
deriving DecidableEq, Repr

/-- Whether the pattern can match the empty string. -/
def Regex.nullable : Regex → Bool
  | .empty => true
  | .lit _ => false
  | .any => false
  | .digit => false
  | .bol => true
  | .eol => true
  | .cat a b => a.nullable && b.nullable
  | .alt a b => a.nullable || b.nullable
  | .star _ _ => true
  | .plus _ a => a.nullable
  | .quest _ _ => true
  | .group _ a => a.nullable

/-- Concatenation of the pieces of one alternative, given latest first. -/
def mkCat : List Regex → Regex
  | [] => .empty
  | [a] => a
  | a :: rest => .cat (mkCat rest) a

/-- Alternation of the alternatives of a group, given latest first. -/
def mkAlt : List Regex → Regex
  | [] => .empty
  | [a] => a
  | a :: rest => .alt (mkAlt rest) a

/-- One open group of the parser: its finished alternatives and the pieces of
the current one (both latest first), and its capture index when it captures. -/
structure Frame where
  alts : List Regex
  cur : List Regex
  cap : Option Nat
deriving DecidableEq, Repr

/-- The pattern of a group once it is closed. -/
def Frame.regex (f : Frame) : Regex :=
  let body := mkAlt (mkCat f.cur :: f.alts)
  match f.cap with
  | some i => .group i body
  | none => body

/-- Applies a repetition operator to the last piece of the open group. -/
def Frame.repetition (f : Frame) (lastRepeat : Bool) (op : Regex → Regex) : Except String Frame :=
  if lastRepeat then .error "invalid nested repetition operator"
  else match f.cur with
    | [] => .error "missing argument to repetition operator"
    | a :: rest =>
      if a.nullable then .error "not modelled: repetition of a pattern that matches the empty string"
      else .ok { f with cur := op a :: rest }

/-- Adds a piece to the open group. -/
def Frame.push (f : Frame) (a : Regex) : Frame :=
  { f with cur := a :: f.cur }

/-- The parser: `top` is the innermost open group, `stack` the groups around
it, `ncap` the number of capturing groups opened so far, `lastRepeat` whether
the previous token was a repetition operator. -/
def parseLoop : List Char → List Frame → Frame → Nat → Bool → Except String (Regex × Nat)
  | [], stack, top, ncap, _ =>
    match stack with
    | [] => .ok (top.regex, ncap)
    | _ :: _ => .error "missing closing )"
  | '(' :: '?' :: ':' :: cs, stack, top, ncap, _ =>
    parseLoop cs (top :: stack) ⟨[], [], none⟩ ncap false
  | '(' :: '?' :: _, _, _, _, _ => .error "not modelled: flags and named groups"
  | '(' :: cs, stack, top, ncap, _ =>
    parseLoop cs (top :: stack) ⟨[], [], some (ncap + 1)⟩ (ncap + 1) false
  | ')' :: cs, stack, top, ncap, _ =>
    match stack with
    | [] => .error "unexpected )"
    | parent :: stack => parseLoop cs stack (parent.push top.regex) ncap false
  | '|' :: cs, stack, top, ncap, _ =>
    parseLoop cs stack { top with alts := mkCat top.cur :: top.alts, cur := [] } ncap false
  | '*' :: '?' :: cs, stack, top, ncap, lastRepeat =>
    (top.repetition lastRepeat (.star false)).bind (fun top => parseLoop cs stack top ncap true)
  | '*' :: cs, stack, top, ncap, lastRepeat =>
    (top.repetition lastRepeat (.star true)).bind (fun top => parseLoop cs stack top ncap true)
  | '+' :: '?' :: cs, stack, top, ncap, lastRepeat =>
    (top.repetition lastRepeat (.plus false)).bind (fun top => parseLoop cs stack top ncap true)
  | '+' :: cs, stack, top, ncap, lastRepeat =>
    (top.repetition lastRepeat (.plus true)).bind (fun top => parseLoop cs stack top ncap true)
  | '?' :: '?' :: cs, stack, top, ncap, lastRepeat =>
    (top.repetition lastRepeat (.quest false)).bind (fun top => parseLoop cs stack top ncap true)
  | '?' :: cs, stack, top, ncap, lastRepeat =>
    (top.repetition lastRepeat (.quest true)).bind (fun top => parseLoop cs stack top ncap true)
  | '\\' :: [], _, _, _, _ => .error "trailing backslash at end of expression"
  | '\\' :: c :: cs, stack, top, ncap, _ =>
    if c = 'd' then parseLoop cs stack (top.push .digit) ncap false
    else if c.val < 128 && !c.isAlphanum then parseLoop cs stack (top.push (.lit c)) ncap false
    else .error "not modelled or invalid: escape sequence"
  | '[' :: _, _, _, _, _ => .error "not modelled: character class"
  | '{' :: _, _, _, _, _ => .error "not modelled: counted repetition"
  | '.' :: cs, stack, top, ncap, _ => parseLoop cs stack (top.push .any) ncap false
  | '^' :: cs, stack, top, ncap, _ => parseLoop cs stack (top.push .bol) ncap false
  | '$' :: cs, stack, top, ncap, _ => parseLoop cs stack (top.push .eol) ncap false
  | c :: cs, stack, top, ncap, _ => parseLoop cs stack (top.push (.lit c)) ncap false

/-- A compiled pattern (Go `*regexp.Regexp`): its syntax tree and the number
of capturing groups. -/
structure Regexp where
  prog : Regex
  numSubexp : Nat
deriving DecidableEq, Repr

/-- Go `regexp.Compile` on the subset of the syntax described above; an error
for a pattern outside the subset is the model's, not Go's. -/
def Compile (expr : String) : Except String Regexp :=
  (parseLoop expr.data [] ⟨[], [], none⟩ 0 false).map (fun p => ⟨p.1, p.2⟩)

/-- A point of a match in progress: the offset reached (in characters), the
text from there on, and the text of the groups closed so far (latest first). -/
structure MState where
  pos : Nat
  rest : List Char
  caps : List (Nat × List Char)
deriving DecidableEq, Repr

/-- The state after one character has been consumed. -/
def MState.next (s : MState) (xs : List Char) : MState :=
  { s with pos := s.pos + 1, rest := xs }

/-- Iterations of a loop body `f`, each of which must consume something; at
most `n` of them, which is no bound when `n` is the length of the text left. -/
def loop (f : MState → List MState) (greedy : Bool) : Nat → MState → List MState
  | 0, s => [s]
  | n + 1, s =>
    let more := ((f s).filter (fun s1 => decide (s.pos < s1.pos))).flatMap (loop f greedy n)
    if greedy then more ++ [s] else s :: more

/-- All the ways the pattern matches from state `s`, in order of preference. -/
def Regex.step : Regex → MState → List MState
  | .empty, s => [s]
  | .lit c, s =>
    match s.rest with
    | x :: xs => if x = c then [s.next xs] else []
    | [] => []
  | .any, s =>
    match s.rest with
    | x :: xs => if x = '\n' then [] else [s.next xs]
    | [] => []
  | .digit, s =>
    match s.rest with
    | x :: xs => if x.isDigit then [s.next xs] else []
    | [] => []
  | .bol, s => if s.pos = 0 then [s] else []
  | .eol, s => if s.rest.isEmpty then [s] else []
  | .cat a b, s => (a.step s).flatMap b.step
  | .alt a b, s => a.step s ++ b.step s
  | .star g a, s => loop a.step g s.rest.length s
  | .plus g a, s => (a.step s).flatMap (fun s1 => loop a.step g s1.rest.length s1)
  | .quest g a, s => if g then a.step s ++ [s] else s :: a.step s
  | .group i a, s =>
    (a.step s).map (fun s1 => { s1 with caps := (i, s.rest.take (s1.pos - s.pos)) :: s1.caps })

/-- The preferred match that starts exactly at offset `pos`, where `rest` is
the text from `pos` on. -/
def Regexp.matchAt (re : Regexp) (pos : Nat) (rest : List Char) : Option MState :=
  (re.prog.step ⟨pos, rest, []⟩).head?

/-- The leftmost match at or after offset `pos`: where it starts, the text
from its start on, and its final state. -/
def Regexp.search (re : Regexp) : Nat → List Char → Option (Nat × List Char × MState)
  | pos, [] => (re.matchAt pos []).map (fun m => (pos, [], m))
  | pos, c :: cs =>
    match re.matchAt pos (c :: cs) with
    | some m => some (pos, c :: cs, m)
    | none => re.search (pos + 1) cs

/-- The slice of submatches of a match that starts at `start`: the whole match
first, then one string per group, empty for a group that took no part. -/
def Regexp.submatches (re : Regexp) (start : Nat) (text : List Char) (m : MState) : List String :=
  String.mk (text.take (m.pos - start)) ::
    (List.range re.numSubexp).map (fun i => String.mk ((m.caps.lookup (i + 1)).getD []))

/-- Go `Regexp.FindStringSubmatch`; `none` is the nil slice of no match. -/
def Regexp.FindStringSubmatch (re : Regexp) (s : String) : Option (List String) :=
  (re.search 0 s.data).map (fun r => re.submatches r.1 r.2.1 r.2.2)

/-- The loop of Go `Regexp.ReplaceAllStringFunc` from offset `pos` on: `skip`
characters still belong to the previous match, `justMatched` tells that a
match ended at `pos`. An empty match is replaced unless it directly follows
another match, and the scan then moves on by one character. -/
def Regexp.replaceFrom (re : Regexp) (repl : String → String) :
    Nat → Nat → Bool → List Char → List Char
  | pos, 0, justMatched, [] =>
    match re.matchAt pos [] with
    | some _ => if pos = 0 || !justMatched then (repl "").data else []
    | none => []
  | pos, 0, justMatched, c :: cs =>
    match re.matchAt pos (c :: cs) with
    | none => c :: re.replaceFrom repl (pos + 1) 0 false cs
    | some m =>
      if m.pos = pos then
        (if pos = 0 || !justMatched then (repl "").data else []) ++
          c :: re.replaceFrom repl (pos + 1) 0 false cs
      else
        (repl (String.mk ((c :: cs).take (m.pos - pos)))).data ++
          re.replaceFrom repl (pos + 1) (m.pos - pos - 1) true cs
  | _, _ + 1, _, [] => []
  | pos, skip + 1, justMatched, _ :: cs => re.replaceFrom repl (pos + 1) skip justMatched cs

/-- Go `Regexp.ReplaceAllStringFunc`. -/
def Regexp.ReplaceAllStringFunc (re : Regexp) (src : String) (repl : String → String) : String :=
  String.mk (re.replaceFrom repl 0 0 false src.data)

/-- Go's `regexp` package as `buildHandler` and the handler it returns use it,
taken as a parameter: the type of compiled patterns (`*regexp.Regexp`),
`regexp.Compile`, and `FindStringSubmatch` (`none` is the nil slice of no
match). What is proved for every engine holds for Go's. -/
structure Engine where
  Re : Type
  Compile : String → Except String Re
  FindStringSubmatch : Re → String → Option (List String)

/-- The engine made of the model above. It covers a subset of the syntax only
and reports a pattern outside the subset as an error, which Go does not: it
serves to run the router on patterns of the subset. -/
def Engine.subset : Engine :=
  { Re := Regexp, Compile := nicehttp.Compile,
    FindStringSubmatch := nicehttp.Regexp.FindStringSubmatch }

/-! ## strconv, strings -/

/-- Largest value of a 64-bit Go `int`. -/
def maxInt : Int := 2 ^ 63 - 1

/-- Value of a run of decimal digits, most significant first. -/
def digitsValue (ds : List Char) : Nat :=
  ds.foldl (fun n d => 10 * n + (d.toNat - '0'.toNat)) 0

/-- The optional sign in front of a number: whether it is a minus, and the rest. -/
def splitSign : List Char → Bool × List Char
  | '-' :: ds => (true, ds)
  | '+' :: ds => (false, ds)
  | ds => (false, ds)

/-- Go `strconv.Atoi`, the value returned alone (the caller drops the error):
`0` for text that is no number, the nearest bound for a number out of the
range of `int`. -/
def Atoi (s : String) : Int :=
  let neg := (splitSign s.data).1
  let ds := (splitSign s.data).2
  if ds.isEmpty || !ds.all Char.isDigit then 0
  else
    let n : Int := digitsValue ds
    if neg then (if n > maxInt + 1 then -(maxInt + 1) else -n)
    else (if n > maxInt then maxInt else n)

/-- Go `strings.HasPrefix`. -/
def hasPrefix (s pre : String) : Bool :=
  pre.data.isPrefixOf s.data

/-- Go `strings.HasSuffix`. -/
def hasSuffix (s suf : String) : Bool :=
  suf.data.isSuffixOf s.data

/-! ## gae.go -/

/-- A rule of the `handlers:` section. `HTTPHeaders` is a Go map: here the
list of its entries in the order in which the `range` loop visits them. -/
structure handlerRule where
  URL : String
  StaticFiles : String
  StaticDir : String
  MimeType : String
  HTTPHeaders : List (String × String)
deriving DecidableEq, Repr

/-- Go `(*handlerRule).Valid`. -/
def handlerRule.Valid (hr : handlerRule) : Bool :=
  hr.URL != "" && (hr.StaticFiles != "" || hr.StaticDir != "")

/-- The two library calls of `parseRules`, taken as parameters: `ReadFile` is
`ioutil.ReadFile`, and `Unmarshal raw` gives the records `yaml.Unmarshal`
leaves in `parsed.Handlers` together with the error it returns, if any. -/
structure Loader where
  ReadFile : String → Except String String
  Unmarshal : String → List handlerRule × Option String

/-- The loop of `parseRules` over the records still to visit, `valid` being
the slice built so far: the error of a record with both targets, or the valid
records in order. -/
def validRules : List handlerRule → List handlerRule → Except String (List handlerRule)
  | [], valid => .ok valid
  | rule :: rest, valid =>
    if rule.StaticFiles != "" && rule.StaticDir != "" then
      .error "can't specify both static_files and static_dir"
    else if rule.Valid then validRules rest (valid ++ [rule])
    else validRules rest valid

/-- Go `parseRules`: the slice returned (`none` is nil) and the error returned
(`none` is nil). -/
def parseRules (env : Loader) (yamlPath : String) : Option (List handlerRule) × Option String :=
  match env.ReadFile yamlPath with
  | .error err => (none, some err)
  | .ok raw =>
    let parsed := (env.Unmarshal raw).1
    let err := (env.Unmarshal raw).2
    match validRules parsed [] with
    | .error e => (none, some e)
    | .ok valid => (some valid, err)

/-- Go `fmt.Sprintf(format, arg)` for a format with the one verb `%s`. -/
def sprintf : List Char → List Char → List Char
  | [], _ => []
  | '%' :: 's' :: rest, arg => arg ++ rest
  | c :: rest, arg => c :: sprintf rest arg

/-- The variable `format` of the first loop of `buildHandler`. -/
def handlerRule.format (rule : handlerRule) : String :=
  let format := "^%s"
  if rule.StaticFiles != "" then format ++ "$"
  else if !hasSuffix rule.StaticDir "/" then format ++ "/"
  else format

/-- The variable `safe`: the text that is compiled for a rule. -/
def handlerRule.pattern (rule : handlerRule) : String :=
  String.mk (sprintf rule.format.data rule.URL.data)

/-- The first loop of `buildHandler`: one compiled matcher per rule, or the
first error. -/
def compileRules (E : Engine) : List handlerRule → Except String (List E.Re)
  | [] => .ok []
  | rule :: rules =>
    if !hasPrefix rule.URL "/" then .error "expected static URL to begin with /"
    else
      match E.Compile rule.pattern with
      | .error err => .error err
      | .ok re =>
        match compileRules E rules with
        | .error err => .error err
        | .ok matchers => .ok (re :: matchers)

/-- The package variable `matchSlashGroup`, the compiled pattern `\\(\d+)`. -/
def matchSlashGroup : Regexp :=
  match Compile "\\\\(\\d+)" with
  | .ok re => re
  | .error _ => ⟨.empty, 0⟩

/-- What the router hands the request to, once the headers are set. -/
inductive Target where
  /-- `http.FileServer(http.Dir(dir)).ServeHTTP` with `r.URL.Path` set to `path` -/
  | dir (dir : String) (path : String)
  /-- `http.ServeFile(w, r, name)` -/
  | file (name : String)
  /-- `fallback.ServeHTTP(w, r)` with `r.URL.Path` being `path` -/
  | fallback (path : String)
  /-- an index out of range, which panics -/
  | panic
deriving DecidableEq, Repr

/-- Effect of the router on one request: the header map of the writer and the
collaborator that then writes the reply. -/
structure Routed where
  header : Header
  target : Target
deriving DecidableEq, Repr

/-- The function given to `ReplaceAllStringFunc`: the reference `match` (a
backslash and digits) resolved against the submatches `m`. -/
def backref (m : List String) (mtch : String) : String :=
  let index := Atoi (String.mk (mtch.data.drop 1))
  if index ≤ 0 ∨ index ≥ m.length then ""
  else m.getD index.toNat ""

/-- The path served for a `static_files` rule. -/
def rewritePath (staticFiles : String) (m : List String) : String :=
  matchSlashGroup.ReplaceAllStringFunc staticFiles (backref m)

/-- Go `s[n:]` for `n` not beyond the end, offsets counted in bytes. -/
def sliceFrom : List Char → Nat → List Char
  | cs, 0 => cs
  | [], _ + 1 => []
  | c :: cs, n + 1 => sliceFrom cs (n + 1 - c.utf8Size)

/-- The body of the router loop for a rule that matched with submatches `m`. -/
def applyRule (rule : handlerRule) (m : List String) (path : String) (h : Header) : Routed :=
  let h := if rule.MimeType != "" then h.Set "Content-Type" rule.MimeType else h
  let h := rule.HTTPHeaders.foldl (fun h kv => h.Set kv.1 kv.2) h
  if rule.StaticDir != "" then
    match m with
    | [] => ⟨h, .panic⟩
    | m0 :: _ => ⟨h, .dir rule.StaticDir (String.mk (sliceFrom path.data m0.utf8ByteSize))⟩
  else
    ⟨h, .file (rewritePath rule.StaticFiles m)⟩

/-- The loop of the handler function `f` of `buildHandler`, from index `i` on. -/
def route (E : Engine) (rules : List handlerRule) (path : String) (h : Header) :
    Nat → List E.Re → Routed
  | _, [] => ⟨h, .fallback path⟩
  | i, re :: matchers =>
    match E.FindStringSubmatch re path with
    | none => route E rules path h (i + 1) matchers
    | some m =>
      match rules.get? i with
      | none => ⟨h, .panic⟩
      | some rule => applyRule rule m path h

/-- Go `buildHandler`: the handler as a function of the request path and the
header map of the writer, or the error. -/
def buildHandler (E : Engine) (rules : List handlerRule) :
    Except String (String → Header → Routed) :=
  match compileRules E rules with
  | .error err => .error err
  | .ok matchers => .ok (fun path h => route E rules path h 0 matchers)

/-! ## cors.go -/

/-- Go `http.Handler`: what `ServeHTTP(w, r)` does to the writer, `none` when
it panics. -/
abbrev HTTPHandler := ResponseWriter → Request → Option ResponseWriter

/-- Go `CORS`. -/
def CORS (handler : HTTPHandler) : HTTPHandler := fun w r =>
  let origin := r.Header.Get "Origin"
  let origin := if origin = "" then "*" else origin
  let w := w.SetHeader "Access-Control-Allow-Origin" origin
  let w := w.SetHeader "Access-Control-Allow-Headers" "*"
  let w := w.SetHeader "Access-Control-Allow-Credentials" "true"
  if r.Method = "OPTIONS" then some w
  else handler w r

/-! ## Vocabulary of the statements -/

/-- A default (JSON) value inside any number of wrappers. -/
def Response.jsonChain : Response → Bool
  | .ContentType _ v => v.jsonChain
  | .Status _ v => v.jsonChain
  | .json _ => true
  | _ => false

/-- The code of the outermost status wrapper of a value that holds a code
which is not informational, if there is one: the wrappers with an
informational code around it only send interim responses. -/
def Response.finalStatus : Response → Option Int
  | .ContentType _ v => v.finalStatus
  | .Status s v => if informational s then v.finalStatus else some s
  | _ => none

/-- Every status wrapper down to the outermost one with a code that is not
informational, that one included, holds a code `WriteHeader` accepts. -/
def Response.statusesValid : Response → Bool
  | .ContentType _ v => v.statusesValid
  | .Status s v => checkWriteHeaderCode s && (if informational s then v.statusesValid else true)
  | _ => true

/-- The value inside the wrappers. -/
def Response.inner : Response → Response
  | .ContentType _ v => v.inner
  | .Status _ v => v.inner
  | v => v

/-- The status line and headers of `w` are committed and `w1` still has them. -/
def keepsHead (w w1 : ResponseWriter) : Prop :=
  w1.wroteHeader = true ∧ w1.status = w.status ∧ w1.committed = w.committed

/-- No `Etag` entry in the header map nor among the committed headers. -/
def noEtag (w : ResponseWriter) : Prop :=
  w.handlerHeader.find "Etag" = none ∧ w.committed.find "Etag" = none

/-- The router built from `rules` with the engine `E`, applied to a request
path and a header map; the error when `buildHandler` fails. -/
def routedWith (E : Engine) (rules : List handlerRule) (path : String) (h : Header) :
    Except String Routed :=
  (buildHandler E rules).map fun f => f path h

/-- The router built from `rules` on the engine of the model, applied to a
request path and a header map; the error when `buildHandler` fails. -/
def routed (rules : List handlerRule) (path : String) (h : Header) : Except String Routed :=
  routedWith Engine.subset rules path h

/-- The matchers `buildHandler` compiles for `rules` on the engine of the
model, each tried on `path`. -/
def matchResults (rules : List handlerRule) (path : String) : Except String (List (Option (List String))) :=
  (compileRules Engine.subset rules).map fun ms =>
    ms.map fun re => Engine.subset.FindStringSubmatch re path

/-- The value the spec gives to reference number `N`: submatch `N` when
`1 ≤ N < len(m)`, the empty string otherwise. -/
def refValue (m : List String) (N : Nat) : String :=
  if 1 ≤ N ∧ N < m.length then m.getD N "" else ""

/-- The spec of the rewrite of a file target: every backslash followed by a
maximal run of decimal digits is replaced by the value of that reference, all
other text is kept. `skip` counts the digits of a reference already replaced. -/
def expandRefs (m : List String) : Nat → List Char → List Char
  | _, [] => []
  | skip + 1, _ :: cs => expandRefs m skip cs
  | 0, c :: cs =>
    if c = '\\' ∧ cs.takeWhile Char.isDigit ≠ [] then
      (refValue m (digitsValue (cs.takeWhile Char.isDigit))).data ++
        expandRefs m (cs.takeWhile Char.isDigit).length cs
    else c :: expandRefs m 0 cs

/-- Two rules that both match paths under `/foo/`. -/
def overlappingRules : List handlerRule :=
  [⟨"/foo", "", "a", "", [("X-Rule", "1")]⟩, ⟨"/foo/(.*)", "b/\\1", "", "text/css", [("X-Rule", "2")]⟩]

/-- A loader whose file holds the given records, `err` being what `Unmarshal`
returns as its error. -/
def Loader.fixed (records : List handlerRule) (err : Option String) : Loader :=
  { ReadFile := fun _ => .ok "", Unmarshal := fun _ => (records, err) }

/-- Four records: a directory rule, a record without target, a record without
URL, a file rule. -/
def sampleRecords : List handlerRule :=
  [⟨"/foo", "", "testdata", "", [("X-Test", "123")]⟩, ⟨"/skip", "", "", "text/plain", []⟩,
    ⟨"", "a.txt", "", "", []⟩, ⟨"/bar/(.*)\\.md", "gae/testdata/\\1.txt", "", "application/json", []⟩]

/-! # Theorems -/

/-! ## Header maps: lookups after `Set` -/

theorem canonical_content_type : CanonicalMIMEHeaderKey "Content-Type" = "Content-Type" := by decide

theorem canonical_etag : CanonicalMIMEHeaderKey "ETag" = "Etag" := by decide

theorem canonical_nosniff :
    CanonicalMIMEHeaderKey "X-Content-Type-Options" = "X-Content-Type-Options" := by decide

theorem canonical_if_none_match : CanonicalMIMEHeaderKey "If-None-Match" = "If-None-Match" := by decide

theorem Header.find_Set_self (h : Header) (key value : String) :
    (h.Set key value).find (CanonicalMIMEHeaderKey key) = some value := by
  simp [Header.find, Header.Set, List.lookup]

theorem lookup_filter_ne (h : List (String × String)) (k c : String) (hk : k ≠ c) :
    (h.filter (fun kv => kv.1 != c)).lookup k = h.lookup k := by
  induction h with
  | nil => rfl
  | cons kv t ih =>
    obtain ⟨a, b⟩ := kv
    by_cases hkv : a = c
    · have h1 : ((a, b).1 != c) = false := by simp [hkv]
      have h2 : (k == a) = false := by simpa [hkv] using hk
      rw [List.filter_cons, h1]
      simp only [Bool.false_eq_true, if_false]
      rw [ih, List.lookup_cons, h2]
    · have h1 : ((a, b).1 != c) = true := by simp [hkv]
      rw [List.filter_cons, h1]
      simp only [if_true]
      rw [List.lookup_cons, List.lookup_cons, ih]

theorem Header.find_Set_other (h : Header) (key value k : String)
    (hk : k ≠ CanonicalMIMEHeaderKey key) :
    (h.Set key value).find k = h.find k := by
  unfold Header.find Header.Set
  have h1 : (k == CanonicalMIMEHeaderKey key) = false := by simpa using hk
  rw [List.lookup_cons, h1]
  exact lookup_filter_ne h k _ hk

theorem bodyAllowed_200 : bodyAllowedForStatus 200 = true := by decide
theorem bodyAllowed_500 : bodyAllowedForStatus 500 = true := by decide
theorem bodyAllowed_304 : bodyAllowedForStatus 304 = false := by decide

theorem Header.Get_Set_self (h : Header) (key value : String) :
    (h.Set key value).Get key = value := by
  simp [Header.Get, Header.find_Set_self]

theorem noEtag_SetHeader (w : ResponseWriter) (key value : String)
    (hk : "Etag" ≠ CanonicalMIMEHeaderKey key) (hw : noEtag w) : noEtag (w.SetHeader key value) := by
  refine ⟨?_, hw.2⟩
  simp only [ResponseWriter.SetHeader]
  rw [Header.find_Set_other _ _ _ _ hk]
  exact hw.1

theorem noEtag_WriteHeader (w w1 : ResponseWriter) (code : Int)
    (h1 : w.WriteHeader code = some w1) (hw : noEtag w) : noEtag w1 := by
  unfold ResponseWriter.WriteHeader at h1
  split at h1
  · cases h1; exact hw
  · split at h1
    · cases h1
    · split at h1
      · cases h1; exact hw
      · cases h1; exact ⟨hw.1, hw.1⟩

theorem noEtag_Write (w : ResponseWriter) (data : String) (hw : noEtag w) :
    noEtag (w.Write data).1 := by
  unfold ResponseWriter.Write
  by_cases h : w.wroteHeader = true <;> simp only [h] <;> (repeat' split) <;>
    first | exact hw | exact ⟨hw.1, hw.1⟩

theorem noEtag_Error (w w1 : ResponseWriter) (msg : String) (code : Int)
    (h1 : Error w msg code = some w1) (hw : noEtag w) : noEtag w1 := by
  simp only [Error, Option.bind_eq_bind, Option.pure_def, Option.bind_eq_some] at h1
  obtain ⟨w2, h2, h3⟩ := h1
  cases h3
  apply noEtag_Write
  refine noEtag_WriteHeader _ _ _ h2 ?_
  apply noEtag_SetHeader _ _ _ (by decide)
  exact noEtag_SetHeader _ _ _ (by decide) hw

theorem noEtag_resolve (lib : Lib) (r : Request) (hm : r.Method ≠ "GET") (v : Response)
    (hj : v.jsonChain = true) (w w1 : ResponseWriter) (err : Option String)
    (h1 : resolve lib r v w = some (w1, err)) (hw : noEtag w) : noEtag w1 := by
  induction v generalizing w with
  | ContentType ct v ih =>
    rw [resolve] at h1
    exact ih (by simpa [Response.jsonChain] using hj) _ h1 (noEtag_SetHeader _ _ _ (by decide) hw)
  | Status s v ih =>
    simp only [resolve, Option.bind_eq_bind, Option.bind_eq_some] at h1
    obtain ⟨w2, h2, h3⟩ := h1
    exact ih (by simpa [Response.jsonChain] using hj) _ h3 (noEtag_WriteHeader _ _ _ h2 hw)
  | json enc =>
    have hw2 := noEtag_SetHeader w "Content-Type" "application/json" (by decide) hw
    cases enc with
    | error e =>
      simp only [resolve, hm, ne_eq, not_false_eq_true, if_true, Option.some.injEq, Prod.mk.injEq] at h1
      rw [← h1.1]; exact hw2
    | ok b =>
      simp only [resolve, hm, ne_eq, not_false_eq_true, if_true, Option.some.injEq] at h1
      have := noEtag_Write _ (b ++ "\n") hw2
      rw [h1] at this
      exact this
  | _ => simp [Response.jsonChain] at hj

/-! ## Once the status is written, nothing changes it -/

theorem keepsHead_refl (w : ResponseWriter) (hw : w.wroteHeader = true) : keepsHead w w :=
  ⟨hw, rfl, rfl⟩

theorem keepsHead_trans {w w1 w2 : ResponseWriter} (h1 : keepsHead w w1) (h2 : keepsHead w1 w2) :
    keepsHead w w2 :=
  ⟨h2.1, h2.2.1.trans h1.2.1, h2.2.2.trans h1.2.2⟩

theorem keepsHead_SetHeader (w : ResponseWriter) (key value : String) (hw : w.wroteHeader = true) :
    keepsHead w (w.SetHeader key value) :=
  ⟨hw, rfl, rfl⟩

theorem WriteHeader_committed (w : ResponseWriter) (code : Int) (hw : w.wroteHeader = true) :
    w.WriteHeader code = some w := by
  simp [ResponseWriter.WriteHeader, hw]

theorem keepsHead_Write (w : ResponseWriter) (data : String) (hw : w.wroteHeader = true) :
    keepsHead w (w.Write data).1 := by
  unfold ResponseWriter.Write
  simp only [hw, if_true]
  (repeat' split) <;> first | exact ⟨hw, rfl, rfl⟩ | exact ⟨rfl, rfl, rfl⟩

theorem keepsHead_writeChunks (chunks : List String) (err : Option String) (w : ResponseWriter)
    (hw : w.wroteHeader = true) : keepsHead w (writeChunks w chunks err).1 := by
  induction chunks generalizing w with
  | nil => exact keepsHead_refl w hw
  | cons c cs ih =>
    have h1 := keepsHead_Write w c hw
    unfold writeChunks
    split
    · next w1 heq =>
      rw [heq] at h1
      exact keepsHead_trans h1 (ih w1 h1.1)
    · next w1 e heq =>
      rw [heq] at h1
      exact h1

theorem keepsHead_Error (w : ResponseWriter) (msg : String) (code : Int) (hw : w.wroteHeader = true) :
    ∃ w1, Error w msg code = some w1 ∧ keepsHead w w1 := by
  simp only [Error, Option.bind_eq_bind, Option.pure_def]
  rw [WriteHeader_committed _ _ (by exact hw)]
  exact ⟨_, rfl, keepsHead_trans (keepsHead_trans (keepsHead_SetHeader w _ _ hw)
      (keepsHead_SetHeader _ _ _ hw)) (keepsHead_Write _ _ hw)⟩

theorem keepsHead_Redirect (lib : Lib) (r : Request) (url : String) (code : Int)
    (w : ResponseWriter) (hw : w.wroteHeader = true) :
    ∃ w1, Redirect lib w r url code = some w1 ∧ keepsHead w w1 := by
  unfold Redirect
  simp only [Option.bind_eq_bind, Option.pure_def]
  split_ifs <;> rw [WriteHeader_committed _ _ (by exact hw)] <;>
    simp only [Option.some_bind, Option.some.injEq, exists_eq_left'] <;>
    first
    | exact keepsHead_trans (keepsHead_trans (keepsHead_SetHeader w _ _ hw)
        (keepsHead_SetHeader _ _ _ hw)) (keepsHead_Write _ _ hw)
    | exact keepsHead_trans (keepsHead_SetHeader w _ _ hw) (keepsHead_Write _ _ hw)
    | exact keepsHead_trans (keepsHead_SetHeader w _ _ hw) (keepsHead_SetHeader _ _ _ hw)
    | exact keepsHead_SetHeader w _ _ hw

theorem keepsHead_resolve (lib : Lib) (r : Request) (v : Response) (w : ResponseWriter)
    (hw : w.wroteHeader = true) :
    ∃ w1 err, resolve lib r v w = some (w1, err) ∧ keepsHead w w1 := by
  induction v generalizing w with
  | ContentType ct v ih =>
    obtain ⟨w1, err, h1, h2⟩ := ih (w.SetHeader "Content-Type" ct) hw
    exact ⟨w1, err, by rw [resolve]; exact h1, keepsHead_trans (keepsHead_SetHeader w _ _ hw) h2⟩
  | Status s v ih =>
    obtain ⟨w1, err, h1, h2⟩ := ih w hw
    refine ⟨w1, err, ?_, h2⟩
    simp only [resolve, Option.bind_eq_bind, WriteHeader_committed w s hw, Option.some_bind]
    exact h1
  | int v =>
    by_cases hv : v < 100 ∨ v ≥ 600
    · exact ⟨w, some ErrInvalidStatusCode, by simp [resolve, hv], keepsHead_refl w hw⟩
    · exact ⟨w, none, by simp [resolve, hv, WriteHeader_committed w v hw], keepsHead_refl w hw⟩
  | string v => exact ⟨_, none, by simp [resolve], keepsHead_Write w v hw⟩
  | Template chunks err => exact ⟨(writeChunks w chunks err).1, (writeChunks w chunks err).2, by simp [resolve],
      keepsHead_writeChunks chunks err w hw⟩
  | Redirect target =>
    obtain ⟨w1, h1, h2⟩ := keepsHead_Redirect lib r (if target = "" then r.Path else target) 303 w hw
    exact ⟨w1, none, by simp [resolve, h1], h2⟩
  | Reader chunks err => exact ⟨(writeChunks w chunks err).1, (writeChunks w chunks err).2, by simp [resolve],
      keepsHead_writeChunks chunks err w hw⟩
  | bytes v =>
    exact ⟨((w.SetHeader "Content-Length" (toString v.utf8ByteSize)).Write v).1,
      ((w.SetHeader "Content-Length" (toString v.utf8ByteSize)).Write v).2, by simp [resolve],
      keepsHead_trans (keepsHead_SetHeader w _ _ hw) (keepsHead_Write _ v hw)⟩
  | error msg => exact ⟨w, some msg, by simp [resolve], keepsHead_refl w hw⟩
  | json enc =>
    have hs := keepsHead_SetHeader w "Content-Type" "application/json" hw
    by_cases hm : r.Method = "GET"
    · cases enc with
      | error e => exact ⟨_, some e, by simp [resolve, hm], hs⟩
      | ok b =>
        by_cases he : r.Header.Get "If-None-Match" = "\"" ++ lib.md5hex b ++ "\""
        · obtain ⟨w1, h1, h2⟩ := keepsHead_Error (w.SetHeader "Content-Type" "application/json") "" 304 hw
          exact ⟨w1, none, by simp [resolve, hm, he, h1], keepsHead_trans hs h2⟩
        · exact ⟨(((w.SetHeader "Content-Type" "application/json").SetHeader "ETag"
              ("\"" ++ lib.md5hex b ++ "\"")).Write b).1,
            (((w.SetHeader "Content-Type" "application/json").SetHeader "ETag"
              ("\"" ++ lib.md5hex b ++ "\"")).Write b).2, by simp [resolve, hm, he],
            keepsHead_trans (keepsHead_trans hs (keepsHead_SetHeader _ "ETag" _ hw)) (keepsHead_Write _ b hw)⟩
    · cases enc with
      | error e => exact ⟨_, some e, by simp [resolve, hm], hs⟩
      | ok b =>
        exact ⟨((w.SetHeader "Content-Type" "application/json").Write (b ++ "\n")).1,
          ((w.SetHeader "Content-Type" "application/json").Write (b ++ "\n")).2,
          by simp [resolve, hm], keepsHead_trans hs (keepsHead_Write _ _ hw)⟩

/-- Serving from a committed writer: the reply keeps the committed status and headers. -/
theorem keepsHead_finish (lib : Lib) (r : Request) (v : Response) (w : ResponseWriter)
    (hw : w.wroteHeader = true) :
    ∃ w1, ((resolve lib r v w).bind fun p =>
        match p.2 with
        | some _ => Error p.1 (StatusText 500) 500
        | none => some p.1) = some w1 ∧ keepsHead w w1 := by
  obtain ⟨w1, err, h1, h2⟩ := keepsHead_resolve lib r v w hw
  rw [h1]
  cases err with
  | none => exact ⟨w1, rfl, h2⟩
  | some e =>
    obtain ⟨w2, h3, h4⟩ := keepsHead_Error w1 (StatusText 500) 500 h2.1
    exact ⟨w2, h3, keepsHead_trans h2 h4⟩

theorem ServeHTTP_eq (lib : Lib) (h : Handler) (w : ResponseWriter) (r : Request) :
    Handler.ServeHTTP lib h w r = (resolve lib r (h r) w).bind fun p =>
      match p.2 with
      | some _ => Error p.1 (StatusText 500) 500
      | none => some p.1 := by
  simp only [Handler.ServeHTTP, Option.bind_eq_bind, Option.pure_def]

theorem Write_fresh (w : ResponseWriter) (data : String) (hw : w.wroteHeader = false) :
    (w.Write data).1.wroteHeader = true ∧ (w.Write data).1.status = 200 ∧
      (w.Write data).1.committed = w.handlerHeader := by
  unfold ResponseWriter.Write
  simp only [hw, Bool.false_eq_true, if_false]
  (repeat' split) <;> exact ⟨rfl, rfl, rfl⟩

theorem WriteHeader_fresh (w : ResponseWriter) (code : Int) (hw : w.wroteHeader = false)
    (hc : checkWriteHeaderCode code = true) (hi : informational code = false) :
    w.WriteHeader code =
      some { w with wroteHeader := true, status := code, committed := w.handlerHeader } := by
  simp [ResponseWriter.WriteHeader, hw, hc, hi]

theorem WriteHeader_interim (w : ResponseWriter) (code : Int) (hw : w.wroteHeader = false)
    (hc : checkWriteHeaderCode code = true) (hi : informational code = true) :
    w.WriteHeader code = some { w with interim := w.interim ++ [(code, w.handlerHeader)] } := by
  simp [ResponseWriter.WriteHeader, hw, hc, hi]

theorem WriteHeader_panic (w : ResponseWriter) (code : Int) (hw : w.wroteHeader = false)
    (hc : checkWriteHeaderCode code = false) : w.WriteHeader code = none := by
  simp [ResponseWriter.WriteHeader, hw, hc]

theorem Error_fresh (w : ResponseWriter) (msg : String) (code : Int) (hw : w.wroteHeader = false)
    (hc : checkWriteHeaderCode code = true) (hi : informational code = false) :
    ∃ w1, Error w msg code = some w1 ∧ w1.wroteHeader = true ∧ w1.status = code ∧
      w1.committed = (w.handlerHeader.Set "Content-Type" "text/plain; charset=utf-8").Set
        "X-Content-Type-Options" "nosniff" := by
  simp only [Error, Option.bind_eq_bind, Option.pure_def]
  rw [WriteHeader_fresh _ _ (by exact hw) hc hi]
  refine ⟨_, rfl, ?_⟩
  exact keepsHead_Write _ (msg ++ "\n") rfl

theorem json_chain_reply (lib : Lib) (r : Request) (hm : r.Method ≠ "GET") (v : Response)
    (hj : v.jsonChain = true) (w : ResponseWriter) (hw : w.wroteHeader = false)
    (hs : v.statusesValid = true) :
    ∃ w1, ((resolve lib r v w).bind fun p =>
        match p.2 with
        | some _ => Error p.1 (StatusText 500) 500
        | none => some p.1) = some w1 ∧ w1.wroteHeader = true ∧
      (w1.status = 304 → v.finalStatus = some 304) ∧
      (v.finalStatus = none → (∃ b, v.inner = .json (.ok b)) →
        w1.committed.find "Content-Type" = some "application/json") := by
  induction v generalizing w with
  | ContentType ct v ih =>
    rw [resolve]
    exact ih (by simpa [Response.jsonChain] using hj) (w.SetHeader "Content-Type" ct) hw
      (by simpa [Response.statusesValid] using hs)
  | Status s v ih =>
    simp only [Response.statusesValid, Bool.and_eq_true] at hs
    obtain ⟨hc, hrest⟩ := hs
    by_cases hi : informational s = true
    · simp only [hi, if_true] at hrest
      obtain ⟨w1, h1, h2, h3, h4⟩ := ih (by simpa [Response.jsonChain] using hj)
        { w with interim := w.interim ++ [(s, w.handlerHeader)] } hw hrest
      refine ⟨w1, ?_, h2, ?_, ?_⟩
      · simp only [resolve, Option.bind_eq_bind, WriteHeader_interim w s hw hc hi, Option.some_bind]
        exact h1
      · simpa only [Response.finalStatus, hi, if_true] using h3
      · simpa only [Response.finalStatus, hi, if_true, Response.inner] using h4
    · simp only [Bool.not_eq_true] at hi
      obtain ⟨w1, h3, h4⟩ := keepsHead_finish lib r v
        { w with wroteHeader := true, status := s, committed := w.handlerHeader } rfl
      refine ⟨w1, ?_, h4.1, ?_, ?_⟩
      · simp only [resolve, Option.bind_eq_bind, WriteHeader_fresh w s hw hc hi, Option.some_bind]
        exact h3
      · intro h5
        rw [h4.2.1] at h5
        simp only at h5
        subst h5
        simp only [Response.finalStatus, hi, Bool.false_eq_true, if_false]
      · intro h5
        simp [Response.finalStatus, hi] at h5
  | json enc =>
    cases enc with
    | error e =>
      obtain ⟨w1, h1, h2, h3, _⟩ := Error_fresh (w.SetHeader "Content-Type" "application/json")
        (StatusText 500) 500 hw (by decide) (by decide)
      refine ⟨w1, by simp [resolve, hm, h1], h2, ?_, ?_⟩
      · intro h4; rw [h3] at h4; exact absurd h4 (by decide)
      · intro _ h5
        simp [Response.inner] at h5
    | ok b =>
      obtain ⟨h2, h3, h4⟩ := Write_fresh (w.SetHeader "Content-Type" "application/json")
        (b ++ "\n") hw
      have h5 : ((w.SetHeader "Content-Type" "application/json").Write (b ++ "\n")).2 = none := by
        unfold ResponseWriter.Write
        have : (w.SetHeader "Content-Type" "application/json").wroteHeader = false := hw
        simp only [this, Bool.false_eq_true, if_false, bodyAllowed_200]
        (repeat' split) <;> first | rfl | contradiction
      refine ⟨((w.SetHeader "Content-Type" "application/json").Write (b ++ "\n")).1, ?_, h2, ?_, ?_⟩
      · simp [resolve, hm, h5]
      · intro h6; rw [h3] at h6; exact absurd h6 (by decide)
      · intro _ _
        rw [h4]
        have := Header.find_Set_self w.handlerHeader "Content-Type" "application/json"
        rw [canonical_content_type] at this
        exact this
  | _ => simp [Response.jsonChain] at hj

/-! ## The router: headers of the matched rule -/

theorem find_foldl_Set (c v : String) (l : List (String × String)) (h : Header)
    (huniq : ∀ kv ∈ l, CanonicalMIMEHeaderKey kv.1 = c → kv.2 = v) :
    Header.find (l.foldl (fun h kv => h.Set kv.1 kv.2) h) c =
      if l.any (fun kv => CanonicalMIMEHeaderKey kv.1 == c) then some v else h.find c := by
  induction l generalizing h with
  | nil => simp
  | cons kv t ih =>
    rw [List.foldl_cons, ih _ (fun kv1 h1 => huniq kv1 (List.mem_cons_of_mem _ h1))]
    by_cases hk : CanonicalMIMEHeaderKey kv.1 = c
    · have hv : kv.2 = v := huniq kv (List.mem_cons_self _ _) hk
      have h1 := Header.find_Set_self h kv.1 kv.2
      rw [hk, hv] at h1
      have h2 : (kv :: t).any (fun kv => CanonicalMIMEHeaderKey kv.1 == c) = true := by
        simp [hk]
      rw [h2, hv, h1]
      simp
    · have h1 := Header.find_Set_other h kv.1 kv.2 c (fun h2 => hk h2.symm)
      have h2 : (kv :: t).any (fun kv => CanonicalMIMEHeaderKey kv.1 == c) =
          t.any (fun kv => CanonicalMIMEHeaderKey kv.1 == c) := by
        simp [hk]
      rw [h2, h1]

theorem applyRule_header (rule : handlerRule) (m : List String) (path : String) (h : Header) :
    (applyRule rule m path h).header =
      rule.HTTPHeaders.foldl (fun h kv => h.Set kv.1 kv.2)
        (if rule.MimeType != "" then h.Set "Content-Type" rule.MimeType else h) := by
  unfold applyRule
  simp only
  split
  · split <;> rfl
  · rfl

/-! ## The router: the first matching rule -/

theorem compileRules_length (E : Engine) (rules : List handlerRule) (matchers : List E.Re)
    (hc : compileRules E rules = .ok matchers) : matchers.length = rules.length := by
  induction rules generalizing matchers with
  | nil =>
    simp only [compileRules, Except.ok.injEq] at hc
    rw [← hc]
    rfl
  | cons rule rules ih =>
    unfold compileRules at hc
    split at hc
    · cases hc
    · split at hc
      · cases hc
      · split at hc
        · cases hc
        · next ms hms =>
          cases hc
          simp [ih ms hms]

theorem route_first (E : Engine) (rules : List handlerRule) (path : String) (h : Header)
    (m : List String) (re : E.Re) (hm : E.FindStringSubmatch re path = some m) :
    ∀ (i : Nat) (matchers : List E.Re) (k : Nat), matchers.get? i = some re →
      (∀ j re1, j < i → matchers.get? j = some re1 → E.FindStringSubmatch re1 path = none) →
      route E rules path h k matchers =
        match rules.get? (k + i) with
        | none => ⟨h, .panic⟩
        | some rule => applyRule rule m path h := by
  intro i
  induction i with
  | zero =>
    intro matchers k hi _
    cases matchers with
    | nil => simp at hi
    | cons re1 t =>
      simp only [List.get?_cons_zero, Option.some.injEq] at hi
      subst hi
      simp only [route, hm, Nat.add_zero]
  | succ i ih =>
    intro matchers k hi hfirst
    cases matchers with
    | nil => simp at hi
    | cons re1 t =>
      have h0 : E.FindStringSubmatch re1 path = none := hfirst 0 re1 (Nat.succ_pos i) rfl
      simp only [List.get?_cons_succ] at hi
      simp only [route, h0]
      rw [ih t (k + 1) hi (fun j re2 hj hre2 => hfirst (j + 1) re2 (Nat.succ_lt_succ hj) hre2)]
      have : k + 1 + i = k + (i + 1) := by omega
      rw [this]

/-! ## The rewrite of a file target -/

theorem matchSlashGroup_eq :
    matchSlashGroup = ⟨.cat (.lit '\\') (.group 1 (.plus true .digit)), 1⟩ := by decide

theorem step_cat (a b : Regex) (s : MState) :
    (Regex.cat a b).step s = (a.step s).flatMap b.step := rfl

theorem step_group (i : Nat) (a : Regex) (s : MState) :
    (Regex.group i a).step s =
      (a.step s).map (fun s1 => { s1 with caps := (i, s.rest.take (s1.pos - s.pos)) :: s1.caps }) := rfl

theorem step_plus (g : Bool) (a : Regex) (s : MState) :
    (Regex.plus g a).step s = (a.step s).flatMap (fun s1 => loop a.step g s1.rest.length s1) := rfl

theorem step_lit_cons (c x : Char) (pos : Nat) (xs : List Char) (caps : List (Nat × List Char)) :
    (Regex.lit c).step ⟨pos, x :: xs, caps⟩ = if x = c then [⟨pos + 1, xs, caps⟩] else [] := rfl

theorem step_digit_cons (x : Char) (pos : Nat) (xs : List Char) (caps : List (Nat × List Char)) :
    Regex.digit.step ⟨pos, x :: xs, caps⟩ = if x.isDigit then [⟨pos + 1, xs, caps⟩] else [] := rfl

theorem step_digit_nil (pos : Nat) (caps : List (Nat × List Char)) :
    Regex.digit.step ⟨pos, [], caps⟩ = [] := rfl

theorem loop_succ (f : MState → List MState) (n : Nat) (s : MState) :
    loop f true (n + 1) s =
      ((f s).filter (fun s1 => decide (s.pos < s1.pos))).flatMap (loop f true n) ++ [s] := rfl

theorem loop_digit (n : Nat) (s : MState) (hn : s.rest.length ≤ n) :
    ∃ tail, loop (Regex.step .digit) true n s =
      ⟨s.pos + (s.rest.takeWhile Char.isDigit).length,
        s.rest.drop (s.rest.takeWhile Char.isDigit).length, s.caps⟩ :: tail := by
  induction n generalizing s with
  | zero =>
    obtain ⟨pos, rest, caps⟩ := s
    have : rest = [] := List.length_eq_zero.mp (Nat.le_zero.mp hn)
    subst this
    exact ⟨[], rfl⟩
  | succ n ih =>
    obtain ⟨pos, rest, caps⟩ := s
    cases rest with
    | nil => exact ⟨[], rfl⟩
    | cons x xs =>
      have hn1 : xs.length ≤ n := by simpa using hn
      by_cases hx : x.isDigit = true
      · obtain ⟨tail, ht⟩ := ih ⟨pos + 1, xs, caps⟩ hn1
        refine ⟨tail ++ [⟨pos, x :: xs, caps⟩], ?_⟩
        rw [loop_succ, step_digit_cons]
        simp only [hx, if_true, List.filter_cons, Nat.lt_succ_self,
          decide_True, List.filter_nil, List.flatMap_cons, List.flatMap_nil, List.append_nil, ht,
          List.takeWhile_cons, List.length_cons, List.drop_succ_cons, List.cons_append]
        have : pos + 1 + (List.takeWhile Char.isDigit xs).length =
            pos + ((List.takeWhile Char.isDigit xs).length + 1) := by omega
        rw [this]
      · refine ⟨[], ?_⟩
        rw [loop_succ, step_digit_cons]
        simp [hx, List.takeWhile_cons]

theorem matchAt_nil (pos : Nat) : matchSlashGroup.matchAt pos [] = none := by
  rw [matchSlashGroup_eq]
  rfl

theorem matchAt_none (pos : Nat) (c : Char) (cs : List Char)
    (h : ¬ (c = '\\' ∧ cs.takeWhile Char.isDigit ≠ [])) :
    matchSlashGroup.matchAt pos (c :: cs) = none := by
  rw [matchSlashGroup_eq]
  simp only [Regexp.matchAt, step_cat, step_lit_cons]
  by_cases hc : c = '\\'
  · have hd : cs.takeWhile Char.isDigit = [] := by
      by_contra h1
      exact h ⟨hc, h1⟩
    simp only [hc, if_true, List.flatMap_cons, List.flatMap_nil, List.append_nil, step_group, step_plus]
    cases cs with
    | nil => rfl
    | cons d ds =>
      have hx : ¬ d.isDigit = true := by
        intro hx
        simp [List.takeWhile_cons, hx] at hd
      rw [step_digit_cons]
      simp [hx]
  · simp [hc]

theorem matchAt_some (pos : Nat) (c : Char) (cs : List Char)
    (hc : c = '\\') (hd : cs.takeWhile Char.isDigit ≠ []) :
    ∃ m, matchSlashGroup.matchAt pos (c :: cs) = some m ∧
      m.pos = pos + 1 + (cs.takeWhile Char.isDigit).length := by
  rw [matchSlashGroup_eq]
  cases cs with
  | nil => simp at hd
  | cons d ds =>
    have hx : d.isDigit = true := by
      by_contra hx
      simp [List.takeWhile_cons, hx] at hd
    obtain ⟨tail, ht⟩ := loop_digit ds.length ⟨pos + 1 + 1, ds, []⟩ (Nat.le_refl _)
    simp only at ht
    simp only [Regexp.matchAt, step_cat, step_lit_cons, hc, if_true, List.flatMap_cons,
      List.flatMap_nil, List.append_nil, step_group, step_plus, step_digit_cons, hx, ht,
      List.map_cons, List.head?_cons, List.takeWhile_cons, List.length_cons]
    refine ⟨_, rfl, ?_⟩
    simp only
    omega

theorem takeWhile_all (p : Char → Bool) (cs : List Char) : (cs.takeWhile p).all p = true := by
  induction cs with
  | nil => rfl
  | cons c cs ih =>
    by_cases hc : p c = true
    · simp [List.takeWhile_cons, hc]
    · simp [List.takeWhile_cons, hc]

theorem take_length_takeWhile (p : Char → Bool) (cs : List Char) :
    cs.take (cs.takeWhile p).length = cs.takeWhile p := by
  induction cs with
  | nil => rfl
  | cons c cs ih =>
    by_cases hc : p c = true
    · simp [List.takeWhile_cons, hc, ih]
    · simp [List.takeWhile_cons, hc]

theorem Atoi_digits (ds : List Char) (hne : ds ≠ []) (hall : ds.all Char.isDigit = true) :
    Atoi (String.mk ds) = if (digitsValue ds : Int) > maxInt then maxInt else (digitsValue ds : Int) := by
  cases ds with
  | nil => exact absurd rfl hne
  | cons d ds =>
    have hd : d.isDigit = true := by
      simp only [List.all_cons, Bool.and_eq_true] at hall
      exact hall.1
    have h1 : d ≠ '-' := by
      intro h; rw [h] at hd; exact absurd hd (by decide)
    have h2 : d ≠ '+' := by
      intro h; rw [h] at hd; exact absurd hd (by decide)
    have h3 : splitSign (d :: ds) = (false, d :: ds) := by
      unfold splitSign
      split
      · next ds2 h3 => simp only [List.cons.injEq] at h3; exact absurd h3.1 h1
      · next ds2 h3 => simp only [List.cons.injEq] at h3; exact absurd h3.1 h2
      · rfl
    unfold Atoi
    simp only [h3, hall, List.isEmpty_cons, Bool.not_true, Bool.or_self, Bool.false_eq_true,
      if_false]

theorem backref_eq (m : List String) (ds : List Char) (hm : (m.length : Int) ≤ maxInt)
    (hne : ds ≠ []) (hall : ds.all Char.isDigit = true) :
    backref m (String.mk ('\\' :: ds)) = refValue m (digitsValue ds) := by
  unfold backref refValue
  simp only [List.drop_succ_cons, List.drop_zero]
  rw [Atoi_digits ds hne hall]
  by_cases hbig : (digitsValue ds : Int) > maxInt
  · have h1 : ¬ (1 ≤ digitsValue ds ∧ digitsValue ds < m.length) := by
      intro h
      have : (digitsValue ds : Int) < m.length := by exact_mod_cast h.2
      omega
    have h2 : maxInt ≤ 0 ∨ maxInt ≥ (m.length : Int) := Or.inr hm
    rw [if_pos hbig, if_pos h2, if_neg h1]
  · rw [if_neg hbig]
    by_cases h1 : 1 ≤ digitsValue ds ∧ digitsValue ds < m.length
    · have h2 : ¬ ((digitsValue ds : Int) ≤ 0 ∨ (digitsValue ds : Int) ≥ m.length) := by
        omega
      rw [if_neg h2, if_pos h1, Int.toNat_ofNat]
    · have h2 : (digitsValue ds : Int) ≤ 0 ∨ (digitsValue ds : Int) ≥ m.length := by
        omega
      rw [if_pos h2, if_neg h1]

theorem replaceFrom_eq (m : List String) (hm : (m.length : Int) ≤ maxInt) (cs : List Char) :
    ∀ (pos skip : Nat) (justMatched : Bool),
      matchSlashGroup.replaceFrom (backref m) pos skip justMatched cs = expandRefs m skip cs := by
  induction cs with
  | nil =>
    intro pos skip jm
    cases skip with
    | zero => simp [Regexp.replaceFrom, matchAt_nil, expandRefs]
    | succ k => simp [Regexp.replaceFrom, expandRefs]
  | cons c cs ih =>
    intro pos skip jm
    cases skip with
    | succ k => simp only [Regexp.replaceFrom, expandRefs, ih]
    | zero =>
      by_cases hcond : c = '\\' ∧ cs.takeWhile Char.isDigit ≠ []
      · obtain ⟨mt, h1, h2⟩ := matchAt_some pos c cs hcond.1 hcond.2
        have h3 : ¬ mt.pos = pos := by omega
        have h4 : mt.pos - pos = (cs.takeWhile Char.isDigit).length + 1 := by omega
        have h5 : mt.pos - pos - 1 = (cs.takeWhile Char.isDigit).length := by omega
        have h6 : expandRefs m 0 (c :: cs) =
            (refValue m (digitsValue (cs.takeWhile Char.isDigit))).data ++
              expandRefs m (cs.takeWhile Char.isDigit).length cs := by
          simp only [expandRefs]
          rw [if_pos hcond]
        rw [h6]
        simp only [Regexp.replaceFrom]
        rw [h1]
        simp only [h3, if_false, h5, ih, h4, List.take_succ_cons, take_length_takeWhile]
        rw [hcond.1, backref_eq m _ hm hcond.2 (takeWhile_all _ _), Nat.add_sub_cancel]
      · have h6 : expandRefs m 0 (c :: cs) = c :: expandRefs m 0 cs := by
          simp only [expandRefs]
          rw [if_neg hcond]
        rw [h6]
        simp only [Regexp.replaceFrom]
        rw [matchAt_none pos c cs hcond]
        simp only [ih]

/-! # The claims -/

/-- C1 (the code departs from the claim): at `Status{201, ContentType{"text/plain", "ok"}}`
the status 201 is written before the content type is put into the header map,
so the reply has status 201 and body `ok` but no `Content-Type: text/plain`
header; with the wrappers nested the other way round the header is sent. -/
theorem C1_status_before_content_type :
    serve Lib.sample (fun _ => .Status 201 (.ContentType "text/plain" (.string "ok")))
        ⟨"GET", "/", []⟩ = some ⟨201, [], "ok"⟩ ∧
      serve Lib.sample (fun _ => .ContentType "text/plain" (.Status 201 (.string "ok")))
        ⟨"GET", "/", []⟩ = some ⟨201, [("Content-Type", "text/plain")], "ok"⟩ := by
  decide

/-- C2 (the code departs from the claim): an error value inside a status
wrapper, `Status{201, errors.New("boom")}`, is answered with status 201, not
500: the status of the wrapper is already written when the error is met. The
body is the generic text followed by a newline. -/
theorem C2_error_inside_status_wrapper :
    serve Lib.sample (fun _ => .Status 201 (.error "boom")) ⟨"GET", "/", []⟩ =
      some ⟨201, [], "Internal Server Error\n"⟩ := by
  decide

/-- C3 as stated fails at 103: the code is in `[100,600)`, but `WriteHeader(103)`
only sends an interim response and the reply has status 200. -/
theorem C3_counterexample :
    serve Lib.sample (fun _ => .int 103) ⟨"GET", "/", []⟩ = some ⟨200, [], ""⟩ ∧
      Handler.ServeHTTP Lib.sample (fun _ => .int 103) (ResponseWriter.new ⟨"GET", "/", []⟩)
        ⟨"GET", "/", []⟩ = some ⟨"GET", [], false, 0, [], "", [(103, [])]⟩ := by
  decide

/-- C3, amended: a handler that returns the integer `v` is answered with
status `v` when `v` is 101 or `200 ≤ v < 600`; when `100 ≤ v ≤ 199` and `v` is
not 101, `v` is sent as an interim response and the reply has status 200; when
`v < 100` or `v ≥ 600` the type switch yields the error `ErrInvalidStatusCode`
without touching the writer, and the reply has status 500. -/
theorem C3_int_status (lib : Lib) (h : Handler) (r : Request) (v : Int) (hv : h r = .int v) :
    ((v = 101 ∨ (200 ≤ v ∧ v < 600)) → (serve lib h r).map Result.StatusCode = some v) ∧
    ((100 ≤ v ∧ v ≤ 199 ∧ v ≠ 101) →
      Handler.ServeHTTP lib h (ResponseWriter.new r) r =
        some { (ResponseWriter.new r) with interim := [(v, [])] } ∧
      (serve lib h r).map Result.StatusCode = some 200) ∧
    ((v < 100 ∨ v ≥ 600) →
      (∀ w, resolve lib r (.int v) w = some (w, some ErrInvalidStatusCode)) ∧
      (serve lib h r).map Result.StatusCode = some 500) := by
  refine ⟨?_, ?_, ?_⟩
  · intro hin
    have hc : checkWriteHeaderCode v = true := by
      simp [checkWriteHeaderCode]; omega
    have hi : informational v = false := by
      simp [informational]; omega
    have hn : ¬ (v < 100 ∨ v ≥ 600) := by omega
    have hwh := WriteHeader_fresh (ResponseWriter.new r) v rfl hc hi
    rw [serve, ServeHTTP_eq, hv]
    simp only [resolve, hn, if_false, Option.bind_eq_bind, Option.pure_def, hwh, Option.some_bind,
      Option.map_some']
    rfl
  · intro hin
    have hc : checkWriteHeaderCode v = true := by
      simp [checkWriteHeaderCode]; omega
    have hi : informational v = true := by
      simp [informational]; omega
    have hn : ¬ (v < 100 ∨ v ≥ 600) := by omega
    have hwh := WriteHeader_interim (ResponseWriter.new r) v rfl hc hi
    constructor
    · rw [ServeHTTP_eq, hv]
      simp only [resolve, hn, if_false, Option.bind_eq_bind, Option.pure_def, hwh, Option.some_bind]
      rfl
    · rw [serve, ServeHTTP_eq, hv]
      simp only [resolve, hn, if_false, Option.bind_eq_bind, Option.pure_def, hwh, Option.some_bind,
        Option.map_some']
      rfl
  · intro hout
    refine ⟨fun w => by simp [resolve, hout], ?_⟩
    obtain ⟨w1, h1, h2, h3, _⟩ := Error_fresh (ResponseWriter.new r) (StatusText 500) 500 rfl
      (by decide) (by decide)
    rw [serve, ServeHTTP_eq, hv]
    simp only [resolve, hout, if_true, Option.some_bind, h1, Option.map_some', ResponseWriter.Result,
      h2, h3]

/-- C3, amended, at 42 and 700 (both answered 500), 204 (answered 204) and 100
(answered 200). -/
theorem C3_int_status_witness :
    (serve Lib.sample (fun _ => .int 42) ⟨"GET", "/", []⟩).map Result.StatusCode = some 500 ∧
      (serve Lib.sample (fun _ => .int 700) ⟨"GET", "/", []⟩).map Result.StatusCode = some 500 ∧
      (serve Lib.sample (fun _ => .int 204) ⟨"GET", "/", []⟩).map Result.StatusCode = some 204 ∧
      (serve Lib.sample (fun _ => .int 100) ⟨"GET", "/", []⟩).map Result.StatusCode = some 200 :=
  ⟨((C3_int_status Lib.sample (fun _ => .int 42) ⟨"GET", "/", []⟩ 42 rfl).2.2 (by decide)).2,
    ((C3_int_status Lib.sample (fun _ => .int 700) ⟨"GET", "/", []⟩ 700 rfl).2.2 (by decide)).2,
    (C3_int_status Lib.sample (fun _ => .int 204) ⟨"GET", "/", []⟩ 204 rfl).1 (by decide),
    ((C3_int_status Lib.sample (fun _ => .int 100) ⟨"GET", "/", []⟩ 100 rfl).2.1 (by decide)).2⟩

/-- C4: for a GET request and a default value whose JSON encoding is `b` with
hex digest `D`: when `If-None-Match` differs from `"D"` (quotes included) the
reply has status 200, header `ETag` equal to `"D"` and body `b`; when it is
equal the reply has status 304 and an empty body. -/
theorem C4_get_json_etag (lib : Lib) (h : Handler) (r : Request) (b : String)
    (hget : r.Method = "GET") (hv : h r = .json (.ok b)) :
    (r.Header.Get "If-None-Match" ≠ "\"" ++ lib.md5hex b ++ "\"" →
      ∃ res, serve lib h r = some res ∧ res.StatusCode = 200 ∧
        res.Header.Get "ETag" = "\"" ++ lib.md5hex b ++ "\"" ∧ res.Body = b) ∧
    (r.Header.Get "If-None-Match" = "\"" ++ lib.md5hex b ++ "\"" →
      ∃ res, serve lib h r = some res ∧ res.StatusCode = 304 ∧ res.Body = "") := by
  constructor
  · intro hne
    by_cases hb : b = ""
    · subst hb
      simp [serve, Handler.ServeHTTP, hv, resolve, hget, hne, ResponseWriter.WriteHeader, ResponseWriter.new,
        ResponseWriter.SetHeader, ResponseWriter.Write, ResponseWriter.Result, Header.Get_Set_self]
    · simp [serve, Handler.ServeHTTP, hv, resolve, hget, hne, ResponseWriter.WriteHeader, ResponseWriter.new,
        ResponseWriter.SetHeader, ResponseWriter.Write, ResponseWriter.Result, bodyAllowed_200, hb,
        Header.Get_Set_self]
  · intro heq
    simp [serve, Handler.ServeHTTP, hv, resolve, hget, heq, Error, ResponseWriter.WriteHeader, ResponseWriter.new,
      ResponseWriter.SetHeader, ResponseWriter.Write, ResponseWriter.Result, bodyAllowed_304, checkWriteHeaderCode, informational]

/-- C4 on the body `[1,2]`: first without `If-None-Match`, then with the ETag
of the first reply. -/
theorem C4_get_json_etag_witness :
    (∃ res, serve Lib.sample (fun _ => .json (.ok "[1,2]")) ⟨"GET", "/", []⟩ = some res ∧
        res.StatusCode = 200 ∧
        res.Header.Get "ETag" = "\"d41d8cd98f00b204e9800998ecf8427e\"" ∧ res.Body = "[1,2]") ∧
      (∃ res, serve Lib.sample (fun _ => .json (.ok "[1,2]"))
          ⟨"GET", "/", [("If-None-Match", "\"d41d8cd98f00b204e9800998ecf8427e\"")]⟩ = some res ∧
        res.StatusCode = 304 ∧ res.Body = "") :=
  ⟨(C4_get_json_etag Lib.sample (fun _ => .json (.ok "[1,2]")) ⟨"GET", "/", []⟩ "[1,2]" rfl rfl).1
      (by decide),
    (C4_get_json_etag Lib.sample (fun _ => .json (.ok "[1,2]"))
      ⟨"GET", "/", [("If-None-Match", "\"d41d8cd98f00b204e9800998ecf8427e\"")]⟩ "[1,2]" rfl rfl).2
      (by decide)⟩

/-- C5 as stated fails: a POST handler that returns `Status{304, v}` for a default
value `v` is answered 304, and the reply carries no JSON content type. -/
theorem C5_counterexample :
    serve Lib.sample (fun _ => .Status 304 (.json (.ok "[1,2]"))) ⟨"POST", "/", []⟩ =
      some ⟨304, [], ""⟩ := by
  decide

/-- C5, amended: for a request whose method is not GET and a default value
inside any number of wrappers (the status wrappers down to the first one with
a code that is not informational holding codes `WriteHeader` accepts), the
reply has no ETag header whatever the request headers are; it has status 304
only when the outermost status wrapper whose code is not informational asks
for 304; and when there is no such status wrapper and the value serialises
without error, its `Content-Type` is `application/json`. -/
theorem C5_non_get_json (lib : Lib) (h : Handler) (r : Request)
    (hm : r.Method ≠ "GET") (hj : (h r).jsonChain = true)
    (hs : (h r).statusesValid = true) :
    ∃ res, serve lib h r = some res ∧
      res.Header.find (CanonicalMIMEHeaderKey "ETag") = none ∧
      (res.StatusCode = 304 → (h r).finalStatus = some 304) ∧
      ((h r).finalStatus = none → (∃ b, (h r).inner = .json (.ok b)) →
        res.Header.Get "Content-Type" = "application/json") := by
  obtain ⟨w1, h1, h2, h3, h4⟩ := json_chain_reply lib r hm (h r) hj (ResponseWriter.new r) rfl hs
  have hE : noEtag w1 := by
    rw [Option.bind_eq_some] at h1
    obtain ⟨p, hp, hq⟩ := h1
    obtain ⟨w2, err⟩ := p
    have hw2 : noEtag w2 := noEtag_resolve lib r hm (h r) hj _ w2 err hp ⟨rfl, rfl⟩
    cases err with
    | none =>
      simp only [Option.some.injEq] at hq
      rw [← hq]; exact hw2
    | some e => exact noEtag_Error _ _ _ _ hq hw2
  refine ⟨w1.Result, ?_, ?_, ?_, ?_⟩
  · rw [serve, ServeHTTP_eq, h1]; rfl
  · rw [canonical_etag]
    simp only [ResponseWriter.Result, h2, if_true]
    exact hE.2
  · simp only [ResponseWriter.Result, h2, if_true]
    exact h3
  · intro h5 h6
    simp only [ResponseWriter.Result, h2, if_true, Header.Get, canonical_content_type, h4 h5 h6,
      Option.getD_some]

/-- C5, amended, on a POST request that carries the ETag of the body in
`If-None-Match`, the value being inside a status wrapper with the
informational code 103 and a content-type wrapper: the reply is a 200 with the
JSON content type. -/
theorem C5_non_get_json_witness :
    ("POST" ≠ "GET") ∧
      (Response.Status 103 (.ContentType "text/x" (.json (.ok "[1,2]")))).jsonChain = true ∧
      (Response.Status 103 (.ContentType "text/x" (.json (.ok "[1,2]")))).statusesValid = true ∧
      (∃ res, serve Lib.sample (fun _ => .Status 103 (.ContentType "text/x" (.json (.ok "[1,2]"))))
          ⟨"POST", "/", [("If-None-Match", "\"d41d8cd98f00b204e9800998ecf8427e\"")]⟩ = some res ∧
        res.Header.find (CanonicalMIMEHeaderKey "ETag") = none ∧
        (res.StatusCode = 304 →
          (Response.Status 103 (.ContentType "text/x" (.json (.ok "[1,2]")))).finalStatus =
            some 304) ∧
        ((Response.Status 103 (.ContentType "text/x" (.json (.ok "[1,2]")))).finalStatus = none →
          (∃ b, (Response.Status 103 (.ContentType "text/x" (.json (.ok "[1,2]")))).inner =
            .json (.ok b)) →
          res.Header.Get "Content-Type" = "application/json")) ∧
      serve Lib.sample (fun _ => .Status 103 (.Status 304 (.json (.ok "[1,2]"))))
        ⟨"POST", "/", []⟩ = some ⟨304, [], ""⟩ :=
  ⟨by decide, rfl, by decide,
    C5_non_get_json Lib.sample (fun _ => .Status 103 (.ContentType "text/x" (.json (.ok "[1,2]"))))
      ⟨"POST", "/", [("If-None-Match", "\"d41d8cd98f00b204e9800998ecf8427e\"")]⟩
      (by decide) rfl (by decide),
    by decide⟩

/-- C6 (the code departs from the claim): for the directory rule with URL
`/foo` and directory target `gae/testdata/` the compiled matcher matches
`/foobar` (with whole match `/foo`) and the router serves `bar` from the
directory; the separator is appended only when the directory target lacks one,
as for the target `gae/testdata`, where `/foobar` is not matched. -/
theorem C6_dir_rule_matches_foobar :
    matchResults [⟨"/foo", "", "gae/testdata/", "", []⟩] "/foobar" = .ok [some ["/foo"]] ∧
      routed [⟨"/foo", "", "gae/testdata/", "", []⟩] "/foobar" [] =
        .ok ⟨[], .dir "gae/testdata/" "bar"⟩ ∧
      matchResults [⟨"/foo", "", "gae/testdata", "", []⟩] "/foobar" = .ok [none] :=
  ⟨rfl, rfl, rfl⟩

/-- C7 as stated fails: for a rule with MIME type `application/json` and a
header entry `Content-Type: text/html`, the router leaves `Content-Type` at
`text/html`. -/
theorem C7_counterexample :
    routed [⟨"/bar/(.*)\\.md", "gae/testdata/\\1.txt", "", "application/json",
        [("Content-Type", "text/html")]⟩] "/bar/test.md" [] =
      .ok ⟨[("Content-Type", "text/html")], .file "gae/testdata/test.txt"⟩ :=
  rfl

/-- C7, amended: when the headers map of the matched rule has an entry named
`Content-Type` with value `v`, and no entry under another spelling of that
name with a different value, then after the router has applied the rule the
`Content-Type` header is `v`, whatever the MIME type of the rule: the headers
are applied after the MIME type and win. -/
theorem C7_headers_after_mime (rule : handlerRule) (m : List String) (path : String) (h : Header)
    (v : String) (hin : ("Content-Type", v) ∈ rule.HTTPHeaders)
    (huniq : ∀ kv ∈ rule.HTTPHeaders, CanonicalMIMEHeaderKey kv.1 = "Content-Type" → kv.2 = v) :
    (applyRule rule m path h).header.Get "Content-Type" = v := by
  rw [applyRule_header, Header.Get, canonical_content_type, find_foldl_Set "Content-Type" v _ _ huniq]
  have : rule.HTTPHeaders.any (fun kv => CanonicalMIMEHeaderKey kv.1 == "Content-Type") = true := by
    rw [List.any_eq_true]
    exact ⟨_, hin, by simp [canonical_content_type]⟩
  simp [this]

/-- C7, amended, on a rule with MIME type `application/json` and the headers
`X-Test: 123` and `Content-Type: text/html`. -/
theorem C7_headers_after_mime_witness :
    (applyRule ⟨"/bar/(.*)\\.md", "gae/testdata/\\1.txt", "", "application/json",
        [("X-Test", "123"), ("Content-Type", "text/html")]⟩ ["/bar/test.md", "test"]
        "/bar/test.md" []).header.Get "Content-Type" = "text/html" :=
  C7_headers_after_mime _ _ _ _ "text/html" (by simp)
    (by
      intro kv hkv
      simp only [List.mem_cons, List.mem_singleton, List.mem_nil_iff, or_false] at hkv
      rcases hkv with rfl | rfl
      · intro hk; exact absurd hk (by decide)
      · intro _; rfl)

/-- C8: for every regexp engine (Go's among them), when the matcher of index
`i` matches the path with submatches `m` and no matcher of a smaller index
matches, the router built from the rules does exactly what the body of the
loop does for rule `i` and `m`: the headers, MIME type and target are those of
rule `i` alone, whatever the later matchers do on the path. -/
theorem C8_first_match_wins (E : Engine) (rules : List handlerRule) (matchers : List E.Re)
    (hc : compileRules E rules = .ok matchers) (path : String) (h : Header)
    (i : Nat) (re : E.Re) (m : List String)
    (hi : matchers.get? i = some re) (hm : E.FindStringSubmatch re path = some m)
    (hfirst : ∀ j re1, j < i → matchers.get? j = some re1 →
      E.FindStringSubmatch re1 path = none) :
    ∃ rule, rules.get? i = some rule ∧
      routedWith E rules path h = .ok (applyRule rule m path h) := by
  have hlen := compileRules_length E rules matchers hc
  have hlt : i < rules.length := by
    rw [← hlen]
    exact List.get?_eq_some.mp hi |>.1
  refine ⟨rules.get ⟨i, hlt⟩, List.get?_eq_get hlt, ?_⟩
  simp only [routedWith, buildHandler, hc, Except.map]
  rw [route_first E rules path h m re hm i matchers 0 hi hfirst, Nat.zero_add,
    List.get?_eq_get hlt]

/-- C8 on two rules that both match `/foo/x.css`: the first one is applied,
the header and target of the second are not. -/
theorem C8_first_match_wins_witness :
    ∃ rule, overlappingRules.get? 0 = some rule ∧
      routed overlappingRules "/foo/x.css" [] = .ok (applyRule rule ["/foo/"] "/foo/x.css" []) ∧
      matchResults overlappingRules "/foo/x.css" =
        .ok [some ["/foo/"], some ["/foo/x.css", "x.css"]] ∧
      routed overlappingRules "/foo/x.css" [] = .ok ⟨[("X-Rule", "1")], .dir "a" "x.css"⟩ :=
  (C8_first_match_wins Engine.subset overlappingRules
    ((compileRules Engine.subset overlappingRules).toOption.getD []) rfl
    "/foo/x.css" [] 0 _ ["/foo/"] rfl rfl (fun j _ hj => absurd hj (Nat.not_lt_zero j))).imp
    fun _ hr => ⟨hr.1, hr.2, rfl, rfl⟩

/-- C9: for a rule with a file target (no directory target) and the submatches
`m` of a match, `m` being a Go slice (its length fits an `int`), the path the
router serves is the file target in which every backslash followed by a
maximal run of decimal digits `N` is replaced by `m[N]` when `1 ≤ N < len(m)`
and by the empty string otherwise, the rest of the text being kept. -/
theorem C9_file_target_rewrite (rule : handlerRule) (m : List String) (path : String) (h : Header)
    (hdir : rule.StaticDir = "") (hm : (m.length : Int) ≤ maxInt) :
    (applyRule rule m path h).target = .file (String.mk (expandRefs m 0 rule.StaticFiles.data)) := by
  have h1 : (rule.StaticDir != "") = false := by simp [hdir]
  simp only [applyRule, h1, Bool.false_eq_true, if_false, rewritePath, Regexp.ReplaceAllStringFunc]
  rw [replaceFrom_eq m hm]

/-- C9 on the file target `/data/\1.txt` and the match of `/bar/(.*)\.md` on
`/bar/test.md`: the path served is `/data/test.txt`. -/
theorem C9_file_target_rewrite_witness :
    matchResults [⟨"/bar/(.*)\\.md", "/data/\\1.txt", "", "", []⟩] "/bar/test.md" =
        .ok [some ["/bar/test.md", "test"]] ∧
      ((["/bar/test.md", "test"].length : Int) ≤ maxInt) ∧
      (applyRule ⟨"/bar/(.*)\\.md", "/data/\\1.txt", "", "", []⟩ ["/bar/test.md", "test"]
        "/bar/test.md" []).target = .file "/data/test.txt" :=
  ⟨rfl, by decide,
    (C9_file_target_rewrite ⟨"/bar/(.*)\\.md", "/data/\\1.txt", "", "", []⟩
      ["/bar/test.md", "test"] "/bar/test.md" [] rfl (by decide)).trans (by decide)⟩

/-- C10 (the code departs from the claim): for the file rule with URL `/a|/b`
the text compiled is `^/a|/b$`, whose first alternative is not anchored at the
end: the matcher matches `/ab` with whole match `/a` and the router serves the
file target. The rule with URL `/bar/(.*)\.md` matches `/bar/test.md` and does
not match `/bar/test.md.extra`. -/
theorem C10_file_rule_alternation :
    matchResults [⟨"/a|/b", "x.txt", "", "", []⟩] "/ab" = .ok [some ["/a"]] ∧
      routed [⟨"/a|/b", "x.txt", "", "", []⟩] "/ab" [] = .ok ⟨[], .file "x.txt"⟩ ∧
      matchResults [⟨"/bar/(.*)\\.md", "/data/\\1.txt", "", "", []⟩] "/bar/test.md" =
        .ok [some ["/bar/test.md", "test"]] ∧
      matchResults [⟨"/bar/(.*)\\.md", "/data/\\1.txt", "", "", []⟩] "/bar/test.md.extra" =
        .ok [none] :=
  ⟨rfl, rfl, rfl, rfl⟩


/-! ## parseRules -/

theorem validRules_both (parsed : List handlerRule)
    (hboth : ∃ rule ∈ parsed, rule.StaticFiles ≠ "" ∧ rule.StaticDir ≠ "") :
    ∀ valid, validRules parsed valid = .error "can't specify both static_files and static_dir" := by
  induction parsed with
  | nil =>
    obtain ⟨rule, hr, _⟩ := hboth
    simp at hr
  | cons rule rest ih =>
    intro valid
    by_cases hb : (rule.StaticFiles != "" && rule.StaticDir != "") = true
    · simp only [validRules, hb, if_true]
    · have hrest : ∃ rule ∈ rest, rule.StaticFiles ≠ "" ∧ rule.StaticDir ≠ "" := by
        obtain ⟨r1, hr1, h1, h2⟩ := hboth
        rcases List.mem_cons.mp hr1 with rfl | hmem
        · exact absurd (by simp [h1, h2]) hb
        · exact ⟨r1, hmem, h1, h2⟩
      simp only [validRules, hb, Bool.false_eq_true, if_false]
      split
      · exact ih hrest _
      · exact ih hrest _

theorem validRules_filter (parsed : List handlerRule)
    (hnone : ∀ rule ∈ parsed, ¬ (rule.StaticFiles ≠ "" ∧ rule.StaticDir ≠ "")) :
    ∀ valid, validRules parsed valid = .ok (valid ++ parsed.filter handlerRule.Valid) := by
  induction parsed with
  | nil => intro valid; simp [validRules]
  | cons rule rest ih =>
    intro valid
    have hb : (rule.StaticFiles != "" && rule.StaticDir != "") = false := by
      have := hnone rule (List.mem_cons_self _ _)
      by_contra h
      simp only [Bool.not_eq_false, Bool.and_eq_true, bne_iff_ne, ne_eq] at h
      exact this h
    have hrest : ∀ r1 ∈ rest, ¬ (r1.StaticFiles ≠ "" ∧ r1.StaticDir ≠ "") :=
      fun r1 h1 => hnone r1 (List.mem_cons_of_mem _ h1)
    simp only [validRules, hb, Bool.false_eq_true, if_false]
    by_cases hv : rule.Valid = true
    · simp only [hv, if_true, ih hrest, List.filter_cons, List.append_assoc, List.singleton_append]
    · simp only [hv, Bool.false_eq_true, if_false, ih hrest, List.filter_cons]

/-- C11: when the records read from the file hold one with both `static_files`
and `static_dir` non-empty, `parseRules` returns a nil slice and the error
about the two targets, whatever the other records and whatever `Unmarshal`
returned as its error. -/
theorem C11_both_targets_error (env : Loader) (yamlPath raw : String)
    (hread : env.ReadFile yamlPath = .ok raw)
    (hboth : ∃ rule ∈ (env.Unmarshal raw).1, rule.StaticFiles ≠ "" ∧ rule.StaticDir ≠ "") :
    parseRules env yamlPath = (none, some "can't specify both static_files and static_dir") := by
  simp only [parseRules, hread, validRules_both _ hboth]

/-- C12: when the file is read and parsed without error and no record has both
targets, `parseRules` returns, with a nil error, the records that have a
non-empty URL and at least one non-empty target, in their order and unchanged. -/
theorem C12_valid_rules_kept (env : Loader) (yamlPath raw : String)
    (hread : env.ReadFile yamlPath = .ok raw) (hparse : (env.Unmarshal raw).2 = none)
    (hnone : ∀ rule ∈ (env.Unmarshal raw).1, ¬ (rule.StaticFiles ≠ "" ∧ rule.StaticDir ≠ "")) :
    parseRules env yamlPath =
      (some ((env.Unmarshal raw).1.filter fun rule =>
        decide (rule.URL ≠ "" ∧ (rule.StaticFiles ≠ "" ∨ rule.StaticDir ≠ ""))), none) := by
  have hvalid : (fun rule : handlerRule =>
      decide (rule.URL ≠ "" ∧ (rule.StaticFiles ≠ "" ∨ rule.StaticDir ≠ ""))) = handlerRule.Valid := by
    funext rule
    by_cases h1 : rule.URL = "" <;> by_cases h2 : rule.StaticFiles = "" <;>
      by_cases h3 : rule.StaticDir = "" <;> simp [handlerRule.Valid, h1, h2, h3]
  simp only [parseRules, hread, validRules_filter _ hnone, List.nil_append, hparse, hvalid]


/-! ## The router: no match, and building -/

theorem applyRule_not_fallback (rule : handlerRule) (m : List String) (path : String) (h : Header)
    (p : String) : (applyRule rule m path h).target ≠ .fallback p := by
  unfold applyRule
  simp only
  split
  · split <;> simp
  · simp

theorem route_no_match (E : Engine) (rules : List handlerRule) (path : String) (h : Header)
    (matchers : List E.Re) (hno : ∀ re ∈ matchers, E.FindStringSubmatch re path = none) :
    ∀ k, route E rules path h k matchers = ⟨h, .fallback path⟩ := by
  induction matchers with
  | nil => intro k; rfl
  | cons re t ih =>
    intro k
    simp only [route, hno re (List.mem_cons_self _ _)]
    exact ih (fun re1 h1 => hno re1 (List.mem_cons_of_mem _ h1)) _

theorem route_some_match (E : Engine) (rules : List handlerRule) (path : String) (h : Header)
    (matchers : List E.Re) (hsome : ∃ re ∈ matchers, E.FindStringSubmatch re path ≠ none)
    (p : String) :
    ∀ k, (route E rules path h k matchers).target ≠ .fallback p := by
  induction matchers with
  | nil =>
    obtain ⟨re, hre, _⟩ := hsome
    simp at hre
  | cons re t ih =>
    intro k
    cases hf : E.FindStringSubmatch re path with
    | none =>
      have ht : ∃ re ∈ t, E.FindStringSubmatch re path ≠ none := by
        obtain ⟨re1, h1, h2⟩ := hsome
        rcases List.mem_cons.mp h1 with rfl | hmem
        · exact absurd hf h2
        · exact ⟨re1, hmem, h2⟩
      simp only [route, hf]
      exact ih ht _
    | some m =>
      simp only [route, hf]
      split
      · simp
      · exact applyRule_not_fallback _ _ _ _ _

/-- C13: for every regexp engine (Go's among them), when no compiled matcher
matches the path, the router hands the request to the fallback with the path
and the header map as they were, applying no rule and serving no file; when
some matcher matches, the request does not go to the fallback. -/
theorem C13_fallback (E : Engine) (rules : List handlerRule) (matchers : List E.Re)
    (hc : compileRules E rules = .ok matchers) (path : String) (h : Header) :
    ((∀ re ∈ matchers, E.FindStringSubmatch re path = none) →
      routedWith E rules path h = .ok ⟨h, .fallback path⟩) ∧
    ((∃ re ∈ matchers, E.FindStringSubmatch re path ≠ none) →
      ∃ res, routedWith E rules path h = .ok res ∧ ∀ p, res.target ≠ .fallback p) := by
  constructor
  · intro hno
    simp only [routedWith, buildHandler, hc, Except.map,
      route_no_match E rules path h matchers hno 0]
  · intro hsome
    refine ⟨route E rules path h 0 matchers, ?_,
      fun p => route_some_match E rules path h matchers hsome p 0⟩
    simp only [routedWith, buildHandler, hc, Except.map]

theorem compileRules_error (E : Engine) (rules : List handlerRule)
    (hbad : ∃ rule ∈ rules,
      hasPrefix rule.URL "/" = false ∨ ∃ e, E.Compile rule.pattern = .error e) :
    ∃ e, compileRules E rules = .error e := by
  induction rules with
  | nil =>
    obtain ⟨rule, hr, _⟩ := hbad
    simp at hr
  | cons rule rest ih =>
    unfold compileRules
    by_cases hp : hasPrefix rule.URL "/" = true
    · simp only [hp, Bool.not_true, Bool.false_eq_true, if_false]
      cases hcomp : E.Compile rule.pattern with
      | error e => exact ⟨e, rfl⟩
      | ok re =>
        have hrest : ∃ r1 ∈ rest,
            hasPrefix r1.URL "/" = false ∨ ∃ e, E.Compile r1.pattern = .error e := by
          obtain ⟨r1, h1, h2⟩ := hbad
          rcases List.mem_cons.mp h1 with rfl | hmem
          · rcases h2 with h2 | ⟨e, h2⟩
            · rw [hp] at h2; cases h2
            · rw [hcomp] at h2; cases h2
          · exact ⟨r1, hmem, h2⟩
        obtain ⟨e, he⟩ := ih hrest
        exact ⟨e, by simp only [he]⟩
    · simp only [Bool.not_eq_true] at hp
      simp only [hp, Bool.not_false, if_true]
      exact ⟨_, rfl⟩

theorem compileRules_ok (E : Engine) (rules : List handlerRule)
    (hgood : ∀ rule ∈ rules,
      hasPrefix rule.URL "/" = true ∧ ∃ re, E.Compile rule.pattern = .ok re) :
    ∃ matchers, compileRules E rules = .ok matchers ∧
      List.Forall₂ (fun rule re => E.Compile rule.pattern = .ok re) rules matchers := by
  induction rules with
  | nil => exact ⟨[], rfl, List.Forall₂.nil⟩
  | cons rule rest ih =>
    obtain ⟨hp, re, hre⟩ := hgood rule (List.mem_cons_self _ _)
    obtain ⟨ms, hms, hall⟩ := ih (fun r1 h1 => hgood r1 (List.mem_cons_of_mem _ h1))
    refine ⟨re :: ms, ?_, List.Forall₂.cons hre hall⟩
    simp only [compileRules, hp, Bool.not_true, Bool.false_eq_true, if_false, hre, hms]

/-- C15: for every regexp engine (Go's among them, with the patterns it
accepts and rejects), when some rule has a URL that does not begin with `/` or
a pattern that the engine does not compile, `buildHandler` returns an error
(and so no handler); when every rule has a URL that begins with `/` and a
pattern that the engine compiles, it returns a handler, built on one matcher
per rule in the order of the rules, each the compiled pattern of its rule. -/
theorem C15_build (E : Engine) (rules : List handlerRule) :
    ((∃ rule ∈ rules,
        hasPrefix rule.URL "/" = false ∨ ∃ e, E.Compile rule.pattern = .error e) →
      ∃ e, buildHandler E rules = .error e) ∧
    ((∀ rule ∈ rules,
        hasPrefix rule.URL "/" = true ∧ ∃ re, E.Compile rule.pattern = .ok re) →
      ∃ matchers, compileRules E rules = .ok matchers ∧
        buildHandler E rules = .ok (fun path h => route E rules path h 0 matchers) ∧
        matchers.length = rules.length ∧
        List.Forall₂ (fun rule re => E.Compile rule.pattern = .ok re) rules matchers) := by
  constructor
  · intro hbad
    obtain ⟨e, he⟩ := compileRules_error E rules hbad
    exact ⟨e, by simp only [buildHandler, he]⟩
  · intro hgood
    obtain ⟨ms, hms, hall⟩ := compileRules_ok E rules hgood
    exact ⟨ms, hms, by simp only [buildHandler, hms], hall.length_eq.symm, hall⟩

theorem sprintf_format (url tail : List Char) :
    sprintf ('^' :: '%' :: 's' :: tail) url = '^' :: (url ++ tail) := by
  simp [sprintf]

/-- C18: the text compiled for a rule whose URL begins with `/` is `^`, the
URL, and then `$` when the file target is not empty, `/` when the file target
is empty and the directory target does not end in `/`, nothing otherwise; and
the matcher of the rule is the compiled form of that text, whatever the regexp
engine. -/
theorem C18_pattern (E : Engine) (rule : handlerRule) (rules : List handlerRule)
    (hp : hasPrefix rule.URL "/" = true) :
    rule.pattern = "^" ++ rule.URL ++
        (if rule.StaticFiles ≠ "" then "$"
          else if hasSuffix rule.StaticDir "/" = false then "/" else "") ∧
      compileRules E (rule :: rules) =
        (E.Compile ("^" ++ rule.URL ++
          (if rule.StaticFiles ≠ "" then "$"
            else if hasSuffix rule.StaticDir "/" = false then "/" else ""))).bind
          fun re => (compileRules E rules).map fun matchers => re :: matchers := by
  have hpat : rule.pattern = "^" ++ rule.URL ++
      (if rule.StaticFiles ≠ "" then "$"
        else if hasSuffix rule.StaticDir "/" = false then "/" else "") := by
    unfold handlerRule.pattern handlerRule.format
    by_cases h1 : rule.StaticFiles = ""
    · by_cases h2 : hasSuffix rule.StaticDir "/" = true
      · simp only [h1, h2]
        apply String.ext
        exact (sprintf_format rule.URL.data []).trans (by simp)
      · simp only [Bool.not_eq_true] at h2
        simp only [h1, h2]
        apply String.ext
        exact (sprintf_format rule.URL.data ['/']).trans (by simp)
    · have h3 : (rule.StaticFiles != "") = true := by simp [h1]
      simp only [h3, if_true, ne_eq, h1, not_false_eq_true]
      apply String.ext
      exact (sprintf_format rule.URL.data ['$']).trans (by simp)
  refine ⟨hpat, ?_⟩
  rw [← hpat]
  simp only [compileRules, hp, Bool.not_true, Bool.false_eq_true, if_false]
  cases E.Compile rule.pattern with
  | error e => rfl
  | ok re =>
    cases compileRules E rules with
    | error e => rfl
    | ok ms => rfl


/-! ## Redirects, status wrappers, CORS -/

theorem canonical_location : CanonicalMIMEHeaderKey "Location" = "Location" := by decide

theorem Get_Location_Set (hd : Header) (x : String) : (hd.Set "Location" x).Get "Location" = x :=
  Header.Get_Set_self hd "Location" x

theorem Get_Location_Set_Set (hd : Header) (x y : String) :
    ((hd.Set "Location" x).Set "Content-Type" y).Get "Location" = x := by
  have h1 := Header.find_Set_other (hd.Set "Location" x) "Content-Type" y "Location" (by decide)
  have h2 := Header.find_Set_self hd "Location" x
  rw [canonical_location] at h2
  simp only [Header.Get, canonical_location, h1, h2, Option.getD_some]

theorem Redirect_fresh (lib : Lib) (w : ResponseWriter) (r : Request) (url : String) (code : Int)
    (hw : w.wroteHeader = false) (hc : checkWriteHeaderCode code = true)
    (hi : informational code = false) :
    ∃ w1, Redirect lib w r url code = some w1 ∧ w1.wroteHeader = true ∧ w1.status = code ∧
      w1.committed.Get "Location" =
        lib.hexEscapeNonASCII (lib.cleanURL (if r.Path = "" then "/" else r.Path) url) := by
  simp only [Redirect, Option.bind_eq_bind, Option.pure_def]
  generalize lib.cleanURL (if r.Path = "" then "/" else r.Path) url = u
  by_cases h1 : (!(w.handlerHeader.find "Content-Type").isSome &&
      (decide (r.Method = "GET") || decide (r.Method = "HEAD"))) = true
  · by_cases h2 : (!(w.handlerHeader.find "Content-Type").isSome && decide (r.Method = "GET")) = true
    · simp only [h1, h2, if_true]
      rw [WriteHeader_fresh _ _ (by exact hw) hc hi]
      refine ⟨_, rfl, (keepsHead_Write _ _ rfl).1, (keepsHead_Write _ _ rfl).2.1, ?_⟩
      rw [(keepsHead_Write _ _ rfl).2.2]
      exact Get_Location_Set_Set _ _ _
    · simp only [h1, h2, if_true, Bool.false_eq_true, if_false]
      rw [WriteHeader_fresh _ _ (by exact hw) hc hi]
      exact ⟨_, rfl, rfl, rfl, Get_Location_Set_Set _ _ _⟩
  · by_cases h2 : (!(w.handlerHeader.find "Content-Type").isSome && decide (r.Method = "GET")) = true
    · simp only [h1, h2, if_true, Bool.false_eq_true, if_false]
      rw [WriteHeader_fresh _ _ (by exact hw) hc hi]
      refine ⟨_, rfl, (keepsHead_Write _ _ rfl).1, (keepsHead_Write _ _ rfl).2.1, ?_⟩
      rw [(keepsHead_Write _ _ rfl).2.2]
      exact Get_Location_Set _ _
    · simp only [h1, h2, Bool.false_eq_true, if_false]
      rw [WriteHeader_fresh _ _ (by exact hw) hc hi]
      exact ⟨_, rfl, rfl, rfl, Get_Location_Set _ _⟩

/-- C14: a handler that returns the Redirect value `v` is answered with status
303 and a `Location` header made by `http.Redirect` from `v` when `v` is not
empty and from the path of the request when it is. -/
theorem C14_redirect (lib : Lib) (h : Handler) (r : Request) (v : String)
    (hv : h r = .Redirect v) :
    ∃ res, serve lib h r = some res ∧ res.StatusCode = 303 ∧
      res.Header.Get "Location" = lib.hexEscapeNonASCII
        (lib.cleanURL (if r.Path = "" then "/" else r.Path) (if v = "" then r.Path else v)) := by
  obtain ⟨w1, h1, h2, h3, h4⟩ := Redirect_fresh lib (ResponseWriter.new r) r
    (if v = "" then r.Path else v) 303 rfl (by decide) (by decide)
  refine ⟨w1.Result, ?_, ?_, ?_⟩
  · rw [serve, ServeHTTP_eq, hv]
    simp only [resolve, Option.bind_eq_bind, Option.pure_def, h1, Option.some_bind, Option.map_some']
  · simp only [ResponseWriter.Result, h2, if_true, h3]
  · simp only [ResponseWriter.Result, h2, if_true, h4]


/-- C19 as stated fails at 42 and at 103: `WriteHeader(42)` panics, so the
wrapper `Status{42, "ok"}` commits no status and no reply is produced;
`WriteHeader(103)` sends an interim response, so `Status{103, "ok"}` is
answered with status 200. `Status{700, "ok"}` is answered with status 700. -/
theorem C19_counterexample :
    serve Lib.sample (fun _ => .Status 42 (.string "ok")) ⟨"GET", "/", []⟩ = none ∧
      serve Lib.sample (fun _ => .Status 103 (.string "ok")) ⟨"GET", "/", []⟩ =
        some ⟨200, [], "ok"⟩ ∧
      serve Lib.sample (fun _ => .Status 700 (.string "ok")) ⟨"GET", "/", []⟩ =
        some ⟨700, [], "ok"⟩ := by
  decide

/-- C19, amended: the `Status` case hands `s` to `WriteHeader` unchecked and
goes on with the inner value, so no `ErrInvalidStatusCode` comes from `s`
(an inner text resolves without error). When `s` is 101 or `200 ≤ s ≤ 999` the
reply has status `s`, also for `s ≥ 600`. When `100 ≤ s ≤ 199` and `s` is not
101, `s` is sent as an interim response and the inner value is resolved with
the status still unwritten, so that an inner text `t` is answered with status
200. When `s < 100` or `s > 999` `WriteHeader` panics and there is no reply. -/
theorem C19_status_wrapper_unchecked (lib : Lib) (h : Handler) (r : Request) (s : Int)
    (inner : Response) (hv : h r = .Status s inner) :
    (∀ w, resolve lib r (.Status s inner) w = (w.WriteHeader s).bind (resolve lib r inner)) ∧
    ((s = 101 ∨ (200 ≤ s ∧ s ≤ 999)) →
      (∃ res, serve lib h r = some res ∧ res.StatusCode = s) ∧
      ∀ t, ∃ w1, resolve lib r (.Status s (.string t)) (ResponseWriter.new r) = some (w1, none)) ∧
    ((100 ≤ s ∧ s ≤ 199 ∧ s ≠ 101) →
      resolve lib r (.Status s inner) (ResponseWriter.new r) =
        resolve lib r inner { (ResponseWriter.new r) with interim := [(s, [])] } ∧
      ∀ t, ∃ res, serve lib (fun _ => .Status s (.string t)) r = some res ∧
        res.StatusCode = 200) ∧
    ((s < 100 ∨ s > 999) → serve lib h r = none) := by
  refine ⟨fun w => rfl, ?_, ?_, ?_⟩
  · intro hin
    have hc : checkWriteHeaderCode s = true := by
      simp [checkWriteHeaderCode]; omega
    have hi : informational s = false := by
      simp [informational]; omega
    have hwh : (ResponseWriter.new r).WriteHeader s =
        some ⟨r.Method, [], true, s, [], "", []⟩ := WriteHeader_fresh (ResponseWriter.new r) s rfl hc hi
    constructor
    · obtain ⟨w1, h3, h4⟩ := keepsHead_finish lib r inner ⟨r.Method, [], true, s, [], "", []⟩ rfl
      refine ⟨w1.Result, ?_, ?_⟩
      · rw [serve, ServeHTTP_eq, hv]
        simp only [resolve, Option.bind_eq_bind, hwh, Option.some_bind]
        rw [h3]; rfl
      · simp only [ResponseWriter.Result, h4.1, if_true, h4.2.1]
    · intro t
      simp only [resolve, Option.bind_eq_bind, hwh, Option.some_bind]
      exact ⟨_, rfl⟩
  · intro hin
    have hc : checkWriteHeaderCode s = true := by
      simp [checkWriteHeaderCode]; omega
    have hi : informational s = true := by
      simp [informational]; omega
    have hwh := WriteHeader_interim (ResponseWriter.new r) s rfl hc hi
    constructor
    · simp only [resolve, Option.bind_eq_bind, hwh, Option.some_bind]
      rfl
    · intro t
      have hw := Write_fresh { (ResponseWriter.new r) with interim := [(s, [])] } t rfl
      refine ⟨({ (ResponseWriter.new r) with interim := [(s, [])] }.Write t).1.Result, ?_, ?_⟩
      · rw [serve, ServeHTTP_eq]
        simp only [resolve, Option.bind_eq_bind, hwh, Option.some_bind, Option.map_some']
        rfl
      · simp only [ResponseWriter.Result, hw.1, if_true, hw.2.1]
  · intro hout
    have hc : checkWriteHeaderCode s = false := by
      simp [checkWriteHeaderCode]; omega
    rw [serve, ServeHTTP_eq, hv]
    simp only [resolve, Option.bind_eq_bind, WriteHeader_panic (ResponseWriter.new r) s rfl hc,
      Option.none_bind, Option.map_none']

/-- C19, amended, at 700 (status 700), at 103 (status 200) and at 42 (no reply). -/
theorem C19_status_wrapper_unchecked_witness :
    (∃ res, serve Lib.sample (fun _ => .Status 700 (.int 800)) ⟨"GET", "/", []⟩ = some res ∧
        res.StatusCode = 700) ∧
      (∃ res, serve Lib.sample (fun _ => .Status 103 (.string "ok")) ⟨"GET", "/", []⟩ = some res ∧
        res.StatusCode = 200) ∧
      serve Lib.sample (fun _ => .Status 42 (.string "ok")) ⟨"GET", "/", []⟩ = none :=
  ⟨((C19_status_wrapper_unchecked Lib.sample (fun _ => .Status 700 (.int 800)) ⟨"GET", "/", []⟩
      700 (.int 800) rfl).2.1 (by decide)).1,
    ((C19_status_wrapper_unchecked Lib.sample (fun _ => .Status 103 (.string "ok"))
      ⟨"GET", "/", []⟩ 103 (.string "ok") rfl).2.2.1 (by decide)).2 "ok",
    (C19_status_wrapper_unchecked Lib.sample (fun _ => .Status 42 (.string "ok")) ⟨"GET", "/", []⟩
      42 (.string "ok") rfl).2.2.2 (by decide)⟩

theorem canonical_allow_origin :
    CanonicalMIMEHeaderKey "Access-Control-Allow-Origin" = "Access-Control-Allow-Origin" := by
  decide

theorem canonical_allow_headers :
    CanonicalMIMEHeaderKey "Access-Control-Allow-Headers" = "Access-Control-Allow-Headers" := by
  decide

theorem canonical_allow_credentials :
    CanonicalMIMEHeaderKey "Access-Control-Allow-Credentials" = "Access-Control-Allow-Credentials" := by
  decide

/-- C16: the middleware puts into the header map of the writer
`Access-Control-Allow-Origin` (the `Origin` of the request, `*` when that is
empty), `Access-Control-Allow-Headers: *` and
`Access-Control-Allow-Credentials: true`, touching nothing else of the writer;
for a method other than OPTIONS its effect is then that of one call of the
wrapped handler on that writer, for OPTIONS it returns with that writer and
the wrapped handler plays no part. -/
theorem C16_cors (handler : HTTPHandler) (w : ResponseWriter) (r : Request) :
    ∃ w1 : ResponseWriter,
      w1.handlerHeader.Get "Access-Control-Allow-Origin" =
        (if r.Header.Get "Origin" = "" then "*" else r.Header.Get "Origin") ∧
      w1.handlerHeader.Get "Access-Control-Allow-Headers" = "*" ∧
      w1.handlerHeader.Get "Access-Control-Allow-Credentials" = "true" ∧
      (w1.reqMethod = w.reqMethod ∧ w1.wroteHeader = w.wroteHeader ∧ w1.status = w.status ∧
        w1.committed = w.committed ∧ w1.body = w.body ∧ w1.interim = w.interim) ∧
      (r.Method ≠ "OPTIONS" → CORS handler w r = handler w1 r) ∧
      (r.Method = "OPTIONS" → ∀ other : HTTPHandler, CORS other w r = some w1) := by
  refine ⟨((w.SetHeader "Access-Control-Allow-Origin"
      (if r.Header.Get "Origin" = "" then "*" else r.Header.Get "Origin")).SetHeader
      "Access-Control-Allow-Headers" "*").SetHeader "Access-Control-Allow-Credentials" "true",
    ?_, ?_, ?_, ⟨rfl, rfl, rfl, rfl, rfl, rfl⟩, ?_, ?_⟩
  · simp only [ResponseWriter.SetHeader, Header.Get, canonical_allow_origin]
    rw [Header.find_Set_other _ _ _ _ (by decide), Header.find_Set_other _ _ _ _ (by decide)]
    have := Header.find_Set_self w.handlerHeader "Access-Control-Allow-Origin"
      (if r.Header.Get "Origin" = "" then "*" else r.Header.Get "Origin")
    rw [canonical_allow_origin] at this
    simp only [Header.Get] at this
    rw [this]; rfl
  · simp only [ResponseWriter.SetHeader, Header.Get, canonical_allow_headers]
    rw [Header.find_Set_other _ _ _ _ (by decide)]
    have := Header.find_Set_self (w.handlerHeader.Set "Access-Control-Allow-Origin"
      (if r.Header.Get "Origin" = "" then "*" else r.Header.Get "Origin"))
      "Access-Control-Allow-Headers" "*"
    rw [canonical_allow_headers] at this
    simp only [Header.Get] at this
    rw [this]; rfl
  · exact Header.Get_Set_self _ _ _
  · intro hm
    simp only [CORS, hm, if_false]
  · intro hm other
    simp only [CORS, hm, if_true]

/-- C17 (the code departs from the claim): for the directory rule with URL
`/x|/y` and target `d` the text compiled is `^/x|/y/`, whose second alternative
is not anchored at the start: on `/q/y/z` the whole match is `/y/`, which is
no beginning of the path, and the lookup path `p[len(m0):]` is `y/z`. The rule
with URL `/foo` and target `gae/testdata` gives `test.txt` on `/foo/test.txt`. -/
theorem C17_dir_rule_alternation :
    matchResults [⟨"/x|/y", "", "d", "", []⟩] "/q/y/z" = .ok [some ["/y/"]] ∧
      routed [⟨"/x|/y", "", "d", "", []⟩] "/q/y/z" [] = .ok ⟨[], .dir "d" "y/z"⟩ ∧
      routed [⟨"/foo", "", "gae/testdata", "", []⟩] "/foo/test.txt" [] =
        .ok ⟨[], .dir "gae/testdata" "test.txt"⟩ :=
  ⟨rfl, rfl, rfl⟩


/-! ## The claims on concrete inputs -/

/-- C11 on three records, the second with both targets: no rule is returned. -/
theorem C11_both_targets_error_witness :
    parseRules (Loader.fixed [⟨"/foo", "", "testdata", "", []⟩, ⟨"/both", "a.txt", "b", "", []⟩,
        ⟨"/bar", "c.txt", "", "", []⟩] none) "app.yaml" =
      (none, some "can't specify both static_files and static_dir") :=
  C11_both_targets_error _ "app.yaml" "" rfl ⟨⟨"/both", "a.txt", "b", "", []⟩, by simp [Loader.fixed], by decide⟩

/-- C12 on four records, of which the second has no target and the third no
URL: the first and the fourth are returned, in that order. -/
theorem C12_valid_rules_kept_witness :
    parseRules (Loader.fixed sampleRecords none) "app.yaml" =
      (some [⟨"/foo", "", "testdata", "", [("X-Test", "123")]⟩,
        ⟨"/bar/(.*)\\.md", "gae/testdata/\\1.txt", "", "application/json", []⟩], none) :=
  (C12_valid_rules_kept (Loader.fixed sampleRecords none) "app.yaml" "" rfl rfl (by decide)).trans
    (by decide)

/-- C13 on the two rules under `/foo`: `/other` goes to the fallback with the
headers as they were, `/foo/x.css` does not go to the fallback. -/
theorem C13_fallback_witness :
    routed overlappingRules "/other" [("X-Before", "1")] =
        .ok ⟨[("X-Before", "1")], .fallback "/other"⟩ ∧
      ∃ res, routed overlappingRules "/foo/x.css" [] = .ok res ∧ ∀ p, res.target ≠ .fallback p :=
  ⟨(C13_fallback Engine.subset overlappingRules
      ((compileRules Engine.subset overlappingRules).toOption.getD []) rfl "/other"
      [("X-Before", "1")]).1 (by decide),
    (C13_fallback Engine.subset overlappingRules
      ((compileRules Engine.subset overlappingRules).toOption.getD []) rfl
      "/foo/x.css" []).2 (by decide)⟩

/-- C14 on a redirect with empty target for a request to `/y` and on a
redirect to `/x`, with library functions that leave both paths as they are. -/
theorem C14_redirect_witness :
    (∃ res, serve Lib.sample (fun _ => .Redirect "") ⟨"GET", "/y", []⟩ = some res ∧
        res.StatusCode = 303 ∧ res.Header.Get "Location" = "/y") ∧
      (∃ res, serve Lib.sample (fun _ => .Redirect "/x") ⟨"POST", "/y", []⟩ = some res ∧
        res.StatusCode = 303 ∧ res.Header.Get "Location" = "/x") :=
  ⟨C14_redirect Lib.sample (fun _ => .Redirect "") ⟨"GET", "/y", []⟩ "" rfl,
    C14_redirect Lib.sample (fun _ => .Redirect "/x") ⟨"POST", "/y", []⟩ "/x" rfl⟩

/-- C15 on the two rules under `/foo` (a handler on two matchers) and on a
rule whose URL is `foo` (an error). -/
theorem C15_build_witness :
    (∃ matchers, compileRules Engine.subset overlappingRules = .ok matchers ∧
        buildHandler Engine.subset overlappingRules =
          .ok (fun path h => route Engine.subset overlappingRules path h 0 matchers) ∧
        matchers.length = overlappingRules.length ∧
        List.Forall₂ (fun rule re => Compile rule.pattern = .ok re) overlappingRules matchers) ∧
      ∃ e, buildHandler Engine.subset [⟨"foo", "", "a", "", []⟩] = .error e :=
  ⟨(C15_build Engine.subset overlappingRules).2 (by
      intro rule hrule
      simp only [overlappingRules, List.mem_cons, List.mem_singleton, List.mem_nil_iff,
        or_false] at hrule
      rcases hrule with rfl | rfl
      · exact ⟨rfl, (Compile "^/foo/").toOption.getD ⟨.empty, 0⟩, rfl⟩
      · exact ⟨rfl, (Compile "^/foo/(.*)$").toOption.getD ⟨.empty, 0⟩, rfl⟩),
    (C15_build Engine.subset [⟨"foo", "", "a", "", []⟩]).1
      ⟨_, List.mem_singleton.mpr rfl, Or.inl rfl⟩⟩

/-- C18 on three rules for `/foo`: the separator follows the last character of
the directory target, not that of the URL. -/
theorem C18_pattern_witness :
    (⟨"/foo", "", "testdata", "", []⟩ : handlerRule).pattern = "^/foo/" ∧
      (⟨"/foo", "", "testdata/", "", []⟩ : handlerRule).pattern = "^/foo" ∧
      (⟨"/foo/", "", "testdata", "", []⟩ : handlerRule).pattern = "^/foo//" ∧
      (⟨"/foo", "a.txt", "", "", []⟩ : handlerRule).pattern = "^/foo$" :=
  ⟨(C18_pattern Engine.subset ⟨"/foo", "", "testdata", "", []⟩ [] rfl).1.trans (by decide),
    (C18_pattern Engine.subset ⟨"/foo", "", "testdata/", "", []⟩ [] rfl).1.trans (by decide),
    (C18_pattern Engine.subset ⟨"/foo/", "", "testdata", "", []⟩ [] rfl).1.trans (by decide),
    (C18_pattern Engine.subset ⟨"/foo", "a.txt", "", "", []⟩ [] rfl).1.trans (by decide)⟩

/-- The middleware around a handler that writes `hi`: the body is `hi`, written
once, for GET, and empty for OPTIONS; the three headers are sent either way. -/
theorem CORS_examples :
    (CORS (fun w _ => some (w.Write "hi").1)
        (ResponseWriter.new ⟨"GET", "/", [("Origin", "https://a.example")]⟩)
        ⟨"GET", "/", [("Origin", "https://a.example")]⟩).map ResponseWriter.Result =
      some ⟨200, [("Access-Control-Allow-Credentials", "true"), ("Access-Control-Allow-Headers", "*"),
        ("Access-Control-Allow-Origin", "https://a.example")], "hi"⟩ ∧
    (CORS (fun w _ => some (w.Write "hi").1) (ResponseWriter.new ⟨"OPTIONS", "/", []⟩)
        ⟨"OPTIONS", "/", []⟩).map ResponseWriter.Result =
      some ⟨200, [("Access-Control-Allow-Credentials", "true"), ("Access-Control-Allow-Headers", "*"),
        ("Access-Control-Allow-Origin", "*")], ""⟩ := by
  decide

end nicehttp
